import Mathlib

/-!
Verification of the plytix-mcp product-resolution core.

This file gives a shallow embedding, in Lean 4, of the identifier
classifier (`src/lookup/identifier.ts`), the lookup engine with its cache
(`src/lookup/lookup.ts`), the relationship hydrator (`src/hydration.ts`),
the hierarchy resolver (`src/hierarchy.ts`) and the summary mapper
(`src/mappers.ts`), together with theorems settling the behavioural
claims about those components.

Modelling conventions:
* JavaScript numbers are modelled as exact rationals (`ℚ`); none of the
  verified properties sits on a floating-point boundary.
* JavaScript `undefined`/missing is `Option.none`; JSON `null` is the
  explicit `JVal.nullv` value (or `none` in fields typed `T | null`).
* A repository/client is a pure function from request to response; a
  response of `none` models a thrown error (the code catches these).
* JavaScript `Map` and `Set` are association lists / duplicate-free lists
  with insertion-order semantics, matching the iteration order the
  runtime guarantees.
-/

namespace Plytix

/-! JavaScript primitive helpers -/

/-- The JS expression `v || d` for an possibly-undefined string `v`:
the empty string is falsy. -/
def jsOr (v : Option String) (d : String) : String :=
  match v with
  | some s => if s = "" then d else s
  | none => d

/-- Insert a key into a JS `Set` modelled as a duplicate-free list in
insertion order. -/
def insertUniq (l : List String) (x : String) : List String :=
  if x ∈ l then l else l ++ [x]

/-- The spread `[...new Set(l)]`: deduplicate keeping first occurrences. -/
def dedupKeepOrder (l : List String) : List String := l.foldl insertUniq []

/-- Lookup in a JS `Map` modelled as an association list. -/
def mapGet {α β : Type} [DecidableEq α] (m : List (α × β)) (k : α) : Option β :=
  (m.find? (fun p => decide (p.1 = k))).map (·.2)

/-- JS `Map.set`: replace in place if the key exists, else append. -/
def mapSet {α β : Type} [DecidableEq α] (m : List (α × β)) (k : α) (v : β) :
    List (α × β) :=
  if m.any (fun p => decide (p.1 = k)) then
    m.map (fun p => if p.1 = k then (k, v) else p)
  else m ++ [(k, v)]

/-- JS `Map.delete`. -/
def mapDelete {α β : Type} [DecidableEq α] (m : List (α × β)) (k : α) :
    List (α × β) :=
  m.filter (fun p => decide (p.1 ≠ k))

/-- ASCII letter, the regex class `[A-Za-z]`. -/
def isAsciiLetter (c : Char) : Bool := c.isAlpha

/-- ASCII letter or digit, the regex class `[A-Za-z0-9]`. -/
def isAsciiAlnum (c : Char) : Bool := c.isAlpha || c.isDigit

/-- Case-insensitive hexadecimal digit, the regex class `[0-9a-f]` with flag `i`. -/
def isHexChar (c : Char) : Bool :=
  c.isDigit || ('a' ≤ c && c ≤ 'f') || ('A' ≤ c && c ≤ 'F')

/-- JS `String.prototype.includes` on character lists. -/
def strIncludes (hay needle : List Char) : Bool :=
  (List.range (hay.length + 1)).any (fun i => needle.isPrefixOf (hay.drop i))

/-- JS `String.prototype.trim`: drop leading and trailing whitespace. -/
def jsTrim (s : String) : String :=
  String.mk (((s.data.dropWhile Char.isWhitespace).reverse.dropWhile
    Char.isWhitespace).reverse)

/-- Split on runs of non-alphanumeric characters and drop empties:
`s.split(/[^A-Za-z0-9]+/).filter(Boolean)`. -/
def splitNonAlnum (s : String) : List String :=
  ((s.data.splitOnP (fun c => !isAsciiAlnum c)).map String.mk).filter
    (fun t => t != "")

/-! Identifier detection (`src/lookup/identifier.ts`) -/

inductive IdentifierType where
  | id | sku | mpn | mno | gtin | label | unknown
deriving DecidableEq, Repr

structure DetectionResult where
  type : IdentifierType
  confidence : ℚ
deriving DecidableEq, Repr

/-- Model of `normalize`: strip every character outside `[A-Za-z0-9]`, uppercase
the rest. -/
def normalize (value : String) : String :=
  String.mk ((value.data.filter isAsciiAlnum).map Char.toUpper)

/-- Model of `calculateSimilarity`: normalized equality, else containment scored
by length ratio. -/
def calculateSimilarity (a b : String) : ℚ :=
  let normalizedA := normalize a
  let normalizedB := normalize b
  if normalizedA = "" ∨ normalizedB = "" then 0
  else if normalizedA = normalizedB then 1.0
  else
    let longer := if normalizedA.length > normalizedB.length then normalizedA else normalizedB
    let shorter := if normalizedA.length > normalizedB.length then normalizedB else normalizedA
    if strIncludes longer.data shorter.data then
      (shorter.length : ℚ) / (longer.length : ℚ)
    else 0

/-- The regex `^[0-9a-f]{24}$` with flag `i`. -/
def isHex24 (s : String) : Bool := s.length = 24 && s.data.all isHexChar

/-- The regex `^\d{8}$|^\d{12}$|^\d{13}$|^\d{14}$`. -/
def isGtinShape (s : String) : Bool :=
  s.data.all Char.isDigit &&
    (s.length = 8 || s.length = 12 || s.length = 13 || s.length = 14)

/-- The regex `\s` applied unanchored. -/
def hasWhitespace (s : String) : Bool := s.data.any Char.isWhitespace

/-- JS `String.prototype.split` with a single-character separator,
on character lists. -/
def splitOnChar (c : Char) : List Char → List (List Char)
  | [] => [[]]
  | x :: xs =>
    match splitOnChar c xs with
    | [] => [[x]]
    | g :: gs => if x = c then [] :: g :: gs else (x :: g) :: gs

/-- The regex `^[A-Z0-9]+(?:-[A-Z0-9]+)+$` with flag `i`: two or more
non-empty alphanumeric groups joined by single dashes. -/
def mpnShape (s : String) : Bool :=
  let parts := splitOnChar '-' s.data
  decide (parts.length ≥ 2) && parts.all (fun p => p != [] && p.all isAsciiAlnum)

/-- The regex `^[A-Z]{3,}-` with flag `i`: at least three leading letters
followed directly by a dash. -/
def vendorDashShape (s : String) : Bool :=
  let run := s.data.takeWhile isAsciiLetter
  decide (run.length ≥ 3) && ((s.data.drop run.length).head? == some '-')

/-- The regex `^[A-Z0-9][A-Z0-9._-]*$` with flag `i`. -/
def skuShape (s : String) : Bool :=
  match s.data with
  | [] => false
  | c :: rest =>
    isAsciiAlnum c && rest.all (fun d => isAsciiAlnum d || d = '.' || d = '_' || d = '-')

/-- The regex `^[A-Z0-9]+$` with flag `i`. -/
def mnoShape (s : String) : Bool := s != "" && s.data.all isAsciiAlnum

/-- Model of `detectIdentifierType`: priority-ordered shape rules with fixed
confidences. -/
def detectIdentifierType (raw : String) : DetectionResult :=
  let s := jsTrim raw
  if s = "" then ⟨.unknown, 0⟩
  else if isHex24 s then ⟨.id, 1.0⟩
  else if isGtinShape s then ⟨.gtin, 0.95⟩
  else if hasWhitespace s then ⟨.label, 0.9⟩
  else if mpnShape s && !vendorDashShape s then ⟨.mpn, 0.8⟩
  else if skuShape s then ⟨.sku, 0.7⟩
  else if mnoShape s then ⟨.mno, 0.6⟩
  else ⟨.unknown, 0⟩

/-! Basic facts about the classifier -/

theorem mnoShape_imp_skuShape (s : String) (h : mnoShape s = true) :
    skuShape s = true := by
  unfold mnoShape at h
  rw [Bool.and_eq_true] at h
  obtain ⟨hne, hall⟩ := h
  unfold skuShape
  cases hd : s.data with
  | nil =>
    exfalso
    have hs : s = "" := String.ext (by rw [hd])
    simp [hs] at hne
  | cons c rest =>
    rw [hd] at hall
    rw [List.all_cons, Bool.and_eq_true] at hall
    obtain ⟨hc, hrest⟩ := hall
    rw [Bool.and_eq_true]
    refine ⟨hc, List.all_eq_true.mpr (fun d hdmem => ?_)⟩
    have := List.all_eq_true.mp hrest d hdmem
    simp [this]

/-- Helper: the `mno` rule of `detectIdentifierType` is unreachable,
because every pure-alphanumeric string already matches the `sku` shape. -/
theorem detect_never_mno (s : String) : (detectIdentifierType s).type ≠ .mno := by
  simp only [detectIdentifierType]
  split_ifs with h0 h1 h2 h3 h4 h5 h6 <;>
    first
      | exact (h5 (mnoShape_imp_skuShape _ h6)).elim
      | simp

/-- C3: the claim says a trimmed, pure-alphanumeric, separator-free string
that is neither 24-hex nor a GTIN digit block is classified `mno` with
confidence 0.6.  The code classifies it `sku` with confidence 0.7, because
the sku pattern `^[A-Z0-9][A-Z0-9._-]*$` also matches strings containing
no separator at all, making the `mno` rule dead code (contradicting the
function's own doc comment "0.6: MNO (pure alphanumeric)"). -/
theorem C3_pure_alnum_is_sku :
    detectIdentifierType "ABC123" = ⟨.sku, 0.7⟩ := by
  simp only [detectIdentifierType]
  rw [if_neg (by decide), if_neg (by decide), if_neg (by decide), if_neg (by decide),
    if_neg (by decide), if_pos (by decide)]

/-- C4 counterexample: "-" is a non-empty string, yet its similarity with
itself is 0, not 1.0, because its normalized form is empty. -/
theorem C4_counterexample :
    ("-" : String) ≠ "" ∧ calculateSimilarity "-" "-" = 0 := by
  constructor
  · decide
  · decide

/-- C4 (amended): self-similarity is exactly 1.0 for every string whose
normalized form is non-empty (at least one ASCII letter or digit). -/
theorem C4_self_similarity (a : String) (h : normalize a ≠ "") :
    calculateSimilarity a a = 1.0 := by
  unfold calculateSimilarity
  simp [h]

/-- C4 witness: the amended theorem applied at the concrete input "AB". -/
theorem C4_self_similarity_witness :
    normalize "AB" ≠ "" ∧ calculateSimilarity "AB" "AB" = 1.0 :=
  ⟨by decide, C4_self_similarity "AB" (by decide)⟩

/-! JSON-like record values.  Records returned by the Plytix repository are
open maps of field name to value; only strings, numbers, booleans, `null`
and nested objects occur in the behaviour under verification (array-valued
attributes are not part of the modelled record universe). -/

inductive JVal where
  | str : String → JVal
  | num : ℚ → JVal
  | boolv : Bool → JVal
  | nullv : JVal
  | obj : List (String × JVal) → JVal

/-- A product record of the lookup engine (`PlytixProduct`): the mandatory
`id` plus the remaining top-level fields in insertion order. -/
structure LProduct where
  id : String
  fields : List (String × JVal)

/-- The record viewed as the underlying JS object. -/
def LProduct.toObj (p : LProduct) : List (String × JVal) :=
  ("id", .str p.id) :: p.fields

/-- Walk a dotted path; a missing key, a `null` or a non-object intermediate
yields `undefined`, exactly as the loop in `getFieldValue` does. -/
def walkPath : JVal → List String → Option JVal
  | v, [] => some v
  | .obj o, p :: ps =>
    match mapGet o p with
    | some v => walkPath v ps
    | none => none
  | _, _ :: _ => none

/-- Model of `getFieldValue(obj, key)`: dotted-path access with a flat-key fallback
(`current ?? obj[key]`), returning only string values. -/
def getFieldValue (record : LProduct) (key : String) : Option String :=
  let parts := (splitOnChar '.' key.data).map String.mk
  let current := walkPath (.obj record.toObj) parts
  let value : Option JVal :=
    match current with
    | some .nullv => mapGet record.toObj key
    | none => mapGet record.toObj key
    | some v => some v
  match value with
  | some (.str s) => some s
  | _ => none

/-! Scoring (`scoreMatch` of `src/lookup/lookup.ts`) -/

/-- Model of `valueNorm.startsWith(idNorm) || idNorm.startsWith(valueNorm)`. -/
def prefixRel (valueNorm idNorm : String) : Bool :=
  idNorm.data.isPrefixOf valueNorm.data || valueNorm.data.isPrefixOf idNorm.data

/-- Model of `valueNorm.includes(idNorm) || idNorm.includes(valueNorm)`. -/
def substrRel (valueNorm idNorm : String) : Bool :=
  strIncludes valueNorm.data idNorm.data || strIncludes idNorm.data valueNorm.data

/-- The candidate values `scoreMatch` collects, in source order: truthy
standard fields, the truthy matched field, then every string-valued custom
attribute (including empty strings, which `typeof v === 'string'` admits). -/
def scoreCandidates (record : LProduct) (matchedField : Option String) : List String :=
  let std := ["sku", "label", "gtin"].filterMap (fun f =>
    match getFieldValue record f with
    | some v => if v = "" then none else some v
    | none => none)
  let mf := match matchedField with
    | some f =>
      (match getFieldValue record f with
       | some v => if v = "" then none else some v
       | none => none).toList
    | none => []
  let attrs := match mapGet record.toObj "attributes" with
    | some (.obj o) => o.filterMap (fun kv =>
        match kv.2 with
        | .str v => some v
        | _ => none)
    | _ => []
  std ++ mf ++ attrs

/-- One iteration of the scoring loop body (after the early exact-match
return): prefix, substring and similarity rules updating the running best. -/
def scoreStep (identifier idNorm v : String) (best : ℚ) (reason : String) :
    ℚ × String :=
  let valueNorm := normalize v
  let p1 := if prefixRel valueNorm idNorm ∧ 0.9 > best then ((0.9 : ℚ), "prefix_match")
    else (best, reason)
  let p2 := if substrRel valueNorm idNorm ∧ 0.75 > p1.1 then ((0.75 : ℚ), "substring_match")
    else p1
  let similarity := calculateSimilarity identifier v
  if similarity > p2.1 ∧ similarity > 0.6 then (similarity, "similarity_match") else p2

/-- The scoring loop of `scoreMatch`, with the `bestScore || 0.1` floor at
the end. -/
def scoreLoop (identifier idNorm : String) :
    List String → ℚ → String → ℚ × String
  | [], best, reason => (if best = 0 then 0.1 else best, reason)
  | v :: rest, best, reason =>
    if normalize v = idNorm then (1.0, "normalized_exact_match")
    else
      let p := scoreStep identifier idNorm v best reason
      scoreLoop identifier idNorm rest p.1 p.2

/-- Model of `scoreMatch`: best heuristic score of the identifier against the
record's candidate values. -/
def scoreMatch (identifier : String) (record : LProduct)
    (matchedField : Option String) : ℚ × String :=
  scoreLoop identifier (normalize identifier) (scoreCandidates record matchedField)
    0 "no_match"

/-- The value contributed by one candidate under the three non-exact rules. -/
def ruleScore (identifier idNorm v : String) : ℚ :=
  let valueNorm := normalize v
  let similarity := calculateSimilarity identifier v
  max (max (if prefixRel valueNorm idNorm then (0.9 : ℚ) else 0)
    (if substrRel valueNorm idNorm then (0.75 : ℚ) else 0))
    (if similarity > 0.6 then similarity else 0)

/-- Best rule value across the candidates, starting from zero. -/
def bestRuleScore (identifier : String) (cands : List String) : ℚ :=
  cands.foldl (fun b v => max b (ruleScore identifier (normalize identifier) v)) 0

theorem strLength_pos {s : String} (h : s ≠ "") : 0 < s.length := by
  have hd : s.data ≠ [] := fun hnil => h (String.ext (by rw [hnil]))
  exact List.length_pos.mpr hd

theorem calculateSimilarity_nonneg (a b : String) : 0 ≤ calculateSimilarity a b := by
  unfold calculateSimilarity
  dsimp only
  split_ifs
  all_goals first
    | exact div_nonneg (Nat.cast_nonneg _) (Nat.cast_nonneg _)
    | norm_num

theorem calculateSimilarity_le_one (a b : String) : calculateSimilarity a b ≤ 1 := by
  unfold calculateSimilarity
  dsimp only
  split_ifs with h1 h2 h3 h4 h5
  · norm_num
  · norm_num
  · rcases not_or.mp h1 with ⟨ha, -⟩
    have hlen : 0 < (normalize a).length := strLength_pos ha
    have hle : (normalize b).length ≤ (normalize a).length := le_of_lt h3
    rw [div_le_one (by exact_mod_cast hlen)]
    exact_mod_cast hle
  · norm_num
  · rcases not_or.mp h1 with ⟨-, hb⟩
    have hlen : 0 < (normalize b).length := strLength_pos hb
    have hle : (normalize a).length ≤ (normalize b).length := le_of_not_lt h3
    rw [div_le_one (by exact_mod_cast hlen)]
    exact_mod_cast hle
  · norm_num

theorem ruleScore_nonneg (identifier idNorm v : String) :
    0 ≤ ruleScore identifier idNorm v := by
  unfold ruleScore
  dsimp only
  have := calculateSimilarity_nonneg identifier v
  split_ifs <;> (simp [le_max_iff]; try norm_num)

theorem ruleScore_le_one (identifier idNorm v : String) :
    ruleScore identifier idNorm v ≤ 1 := by
  unfold ruleScore
  dsimp only
  have h1 := calculateSimilarity_le_one identifier v
  split_ifs <;> simp [max_le_iff] <;> norm_num <;> linarith

theorem scoreStep_fst (identifier idNorm v : String) (best : ℚ) (reason : String)
    (h : 0 ≤ best) :
    (scoreStep identifier idNorm v best reason).1 =
      max best (ruleScore identifier idNorm v) := by
  unfold scoreStep ruleScore
  dsimp only
  set vn := normalize v with hvn
  set s := calculateSimilarity identifier v with hsdef
  set P : ℚ × String :=
    (if prefixRel vn idNorm ∧ 0.9 > best then ((0.9 : ℚ), "prefix_match")
      else (best, reason)) with hP
  set Q : ℚ × String :=
    (if substrRel vn idNorm ∧ 0.75 > P.1 then ((0.75 : ℚ), "substring_match")
      else P) with hQ
  have hPge : best ≤ P.1 := by
    rw [hP]; split_ifs with hc
    · exact le_of_lt hc.2
    · exact le_refl _
  have hQge : P.1 ≤ Q.1 := by
    rw [hQ]; split_ifs with hc
    · exact le_of_lt hc.2
    · exact le_refl _
  have h9 : (if prefixRel vn idNorm then (0.9 : ℚ) else 0) ≤ P.1 := by
    by_cases hp : prefixRel vn idNorm = true
    · rw [if_pos hp, hP]
      by_cases hb : (0.9 : ℚ) > best
      · rw [if_pos ⟨hp, hb⟩]
      · rw [if_neg (fun hc => hb hc.2)]
        exact le_of_not_lt hb
    · rw [if_neg hp]
      exact h.trans hPge
  have h75 : (if substrRel vn idNorm then (0.75 : ℚ) else 0) ≤ Q.1 := by
    by_cases hq : substrRel vn idNorm = true
    · rw [if_pos hq, hQ]
      by_cases hb : (0.75 : ℚ) > P.1
      · rw [if_pos ⟨hq, hb⟩]
      · rw [if_neg (fun hc => hb hc.2)]
        exact le_of_not_lt hb
    · rw [if_neg hq]
      exact h.trans (hPge.trans hQge)
  by_cases hc : s > Q.1 ∧ s > 0.6
  · rw [if_pos hc]
    apply le_antisymm
    · exact le_max_of_le_right (le_max_of_le_right (le_of_eq (if_pos hc.2).symm))
    · apply max_le
      · exact le_of_lt (lt_of_le_of_lt (hPge.trans hQge) hc.1)
      · apply max_le
        · apply max_le
          · exact le_of_lt (lt_of_le_of_lt (h9.trans hQge) hc.1)
          · exact le_of_lt (lt_of_le_of_lt h75 hc.1)
        · rw [if_pos hc.2]
  · rw [if_neg hc]
    have hsimQ : (if s > 0.6 then s else 0) ≤ Q.1 := by
      by_cases hs6 : s > 0.6
      · rw [if_pos hs6]
        rcases not_and_or.mp hc with hlt | hgt
        · exact le_of_not_lt hlt
        · exact absurd hs6 hgt
      · rw [if_neg hs6]
        exact h.trans (hPge.trans hQge)
    by_cases hq : substrRel vn idNorm = true ∧ (0.75 : ℚ) > P.1
    · have hQv : Q.1 = 0.75 := by rw [hQ, if_pos hq]
      rw [hQv]
      apply le_antisymm
      · exact le_max_of_le_right (le_max_of_le_left
          (le_max_of_le_right (le_of_eq (if_pos hq.1).symm)))
      · apply max_le
        · exact (hPge.trans (le_of_lt hq.2))
        · apply max_le
          · apply max_le
            · exact (h9.trans (le_of_lt hq.2))
            · split_ifs <;> norm_num
          · rw [← hQv]
            exact hsimQ
    · have hQv : Q.1 = P.1 := by rw [hQ, if_neg hq]
      by_cases hp : prefixRel vn idNorm = true ∧ (0.9 : ℚ) > best
      · have hPv : P.1 = 0.9 := by rw [hP, if_pos hp]
        rw [hQv, hPv]
        apply le_antisymm
        · exact le_max_of_le_right (le_max_of_le_left
            (le_max_of_le_left (le_of_eq (if_pos hp.1).symm)))
        · apply max_le
          · exact le_of_lt hp.2
          · apply max_le
            · apply max_le
              · split_ifs <;> norm_num
              · split_ifs <;> norm_num
            · rw [← hPv, ← hQv]
              exact hsimQ
      · have hPv : P.1 = best := by rw [hP, if_neg hp]
        rw [hQv, hPv]
        apply le_antisymm
        · exact le_max_left _ _
        · apply max_le
          · exact le_refl _
          · apply max_le
            · apply max_le
              · by_cases hpr : prefixRel vn idNorm = true
                · rw [if_pos hpr]
                  have : ¬ (0.9 : ℚ) > best := fun hb => hp ⟨hpr, hb⟩
                  exact le_of_not_lt this
                · rw [if_neg hpr]
                  exact h
              · by_cases hsr : substrRel vn idNorm = true
                · rw [if_pos hsr]
                  have : ¬ (0.75 : ℚ) > P.1 := fun hb => hq ⟨hsr, hb⟩
                  rw [hPv] at this
                  exact le_of_not_lt this
                · rw [if_neg hsr]
                  exact h
            · rw [← hPv, ← hQv]
              exact hsimQ

theorem scoreStep_fst_nonneg (identifier idNorm v : String) (best : ℚ) (reason : String)
    (h : 0 ≤ best) : 0 ≤ (scoreStep identifier idNorm v best reason).1 := by
  rw [scoreStep_fst identifier idNorm v best reason h]
  exact h.trans (le_max_left _ _)

theorem foldMax_ge_start (identifier idNorm : String) (cands : List String) (b : ℚ) :
    b ≤ cands.foldl (fun acc v => max acc (ruleScore identifier idNorm v)) b := by
  induction cands generalizing b with
  | nil => exact le_refl b
  | cons v rest ih =>
    exact le_trans (le_max_left b (ruleScore identifier idNorm v)) (ih _)

theorem foldMax_le_one (identifier idNorm : String) (cands : List String) (b : ℚ)
    (h : b ≤ 1) :
    cands.foldl (fun acc v => max acc (ruleScore identifier idNorm v)) b ≤ 1 := by
  induction cands generalizing b with
  | nil => exact h
  | cons v rest ih =>
    exact ih _ (max_le h (ruleScore_le_one identifier idNorm v))

theorem scoreStep_id (identifier idNorm v : String) (best : ℚ) (reason : String)
    (hz : ruleScore identifier idNorm v = 0) (_h : 0 ≤ best) :
    scoreStep identifier idNorm v best reason = (best, reason) := by
  have hpre : ¬ prefixRel (normalize v) idNorm = true := by
    intro hp
    have : (0.9 : ℚ) ≤ ruleScore identifier idNorm v := by
      unfold ruleScore
      dsimp only
      exact le_max_of_le_left (le_max_of_le_left (le_of_eq (if_pos hp).symm))
    rw [hz] at this
    norm_num at this
  have hsub : ¬ substrRel (normalize v) idNorm = true := by
    intro hq
    have : (0.75 : ℚ) ≤ ruleScore identifier idNorm v := by
      unfold ruleScore
      dsimp only
      exact le_max_of_le_left (le_max_of_le_right (le_of_eq (if_pos hq).symm))
    rw [hz] at this
    norm_num at this
  have hsim : ¬ calculateSimilarity identifier v > 0.6 := by
    intro hs
    have : calculateSimilarity identifier v ≤ ruleScore identifier idNorm v := by
      unfold ruleScore
      dsimp only
      exact le_max_of_le_right (le_of_eq (if_pos hs).symm)
    rw [hz] at this
    have := lt_of_lt_of_le hs this
    norm_num at this
  unfold scoreStep
  dsimp only
  have h1 : ¬ (prefixRel (normalize v) idNorm = true ∧ (0.9 : ℚ) > best) :=
    fun hc => hpre hc.1
  rw [if_neg h1]
  have h2 : ¬ (substrRel (normalize v) idNorm = true ∧
      (0.75 : ℚ) > ((best, reason) : ℚ × String).1) := fun hc => hsub hc.1
  rw [if_neg h2]
  have h3 : ¬ (calculateSimilarity identifier v > ((best, reason) : ℚ × String).1 ∧
      calculateSimilarity identifier v > 0.6) := fun hc => hsim hc.2
  rw [if_neg h3]

theorem scoreLoop_exact (identifier idNorm : String) (cands : List String)
    (b : ℚ) (r : String) (hex : ∃ v ∈ cands, normalize v = idNorm) :
    scoreLoop identifier idNorm cands b r = (1.0, "normalized_exact_match") := by
  induction cands generalizing b r with
  | nil => rcases hex with ⟨v, hv, -⟩; cases hv
  | cons v rest ih =>
    by_cases hv : normalize v = idNorm
    · unfold scoreLoop
      rw [if_pos hv]
    · unfold scoreLoop
      rw [if_neg hv]
      rcases hex with ⟨w, hw, hwn⟩
      rcases List.mem_cons.mp hw with rfl | hwr
      · exact absurd hwn hv
      · exact ih _ _ ⟨w, hwr, hwn⟩

theorem scoreLoop_fst_no_exact (identifier idNorm : String) (cands : List String)
    (b : ℚ) (r : String) (h : 0 ≤ b)
    (hne : ∀ v ∈ cands, normalize v ≠ idNorm) :
    (scoreLoop identifier idNorm cands b r).1 =
      (if cands.foldl (fun acc v => max acc (ruleScore identifier idNorm v)) b = 0
        then 0.1
        else cands.foldl (fun acc v => max acc (ruleScore identifier idNorm v)) b) := by
  induction cands generalizing b r with
  | nil => rfl
  | cons v rest ih =>
    unfold scoreLoop
    rw [if_neg (hne v (List.mem_cons_self v rest))]
    have hstep := scoreStep_fst identifier idNorm v b r h
    have hstep0 := scoreStep_fst_nonneg identifier idNorm v b r h
    rw [ih _ _ hstep0 (fun w hw => hne w (List.mem_cons_of_mem v hw))]
    simp only [List.foldl_cons, hstep]

theorem scoreLoop_floor (identifier idNorm : String) (cands : List String)
    (b : ℚ) (r : String) (h : 0 ≤ b)
    (hne : ∀ v ∈ cands, normalize v ≠ idNorm)
    (hz : cands.foldl (fun acc v => max acc (ruleScore identifier idNorm v)) b = 0) :
    scoreLoop identifier idNorm cands b r = (0.1, r) := by
  induction cands generalizing b r with
  | nil =>
    rw [List.foldl_nil] at hz
    unfold scoreLoop
    rw [if_pos hz]
  | cons v rest ih =>
    rw [List.foldl_cons] at hz
    have hmax0 : max b (ruleScore identifier idNorm v) = 0 := by
      have hge := foldMax_ge_start identifier idNorm rest
        (max b (ruleScore identifier idNorm v))
      have hub : max b (ruleScore identifier idNorm v) ≤ 0 := hz ▸ hge
      have hlb : 0 ≤ max b (ruleScore identifier idNorm v) :=
        h.trans (le_max_left _ _)
      exact le_antisymm hub hlb
    have hb0 : b = 0 :=
      le_antisymm ((le_max_left _ _).trans hmax0.le) h
    have hrule0 : ruleScore identifier idNorm v = 0 :=
      le_antisymm ((le_max_right _ _).trans hmax0.le)
        (ruleScore_nonneg identifier idNorm v)
    unfold scoreLoop
    rw [if_neg (hne v (List.mem_cons_self v rest))]
    rw [scoreStep_id identifier idNorm v b r hrule0 h]
    exact ih _ _ h (fun w hw => hne w (List.mem_cons_of_mem v hw))
      (by rw [hmax0] at hz; rw [hb0, ← hmax0, hmax0]; exact hz)

/-- C7: `scoreMatch` returns 1.0 with reason `normalized_exact_match` as
soon as some candidate value equals the identifier after normalization;
otherwise its confidence is the best over all candidates of the prefix
(0.9), substring (0.75) and similarity (the similarity value when above
0.6) rules, falling back to the fixed floor 0.1 with reason `no_match`
when no rule fires; the confidence always lies in [0, 1]. -/
theorem C7_scoreMatch (identifier : String) (record : LProduct) (mf : Option String) :
    (0 ≤ (scoreMatch identifier record mf).1 ∧ (scoreMatch identifier record mf).1 ≤ 1) ∧
    ((∃ v ∈ scoreCandidates record mf, normalize v = normalize identifier) →
      scoreMatch identifier record mf = (1.0, "normalized_exact_match")) ∧
    ((∀ v ∈ scoreCandidates record mf, normalize v ≠ normalize identifier) →
      (bestRuleScore identifier (scoreCandidates record mf) = 0 →
        scoreMatch identifier record mf = (0.1, "no_match")) ∧
      (bestRuleScore identifier (scoreCandidates record mf) ≠ 0 →
        (scoreMatch identifier record mf).1 =
          bestRuleScore identifier (scoreCandidates record mf))) := by
  refine ⟨?_, ?_, ?_⟩
  · by_cases hex : ∃ v ∈ scoreCandidates record mf, normalize v = normalize identifier
    · unfold scoreMatch
      rw [scoreLoop_exact identifier (normalize identifier) _ 0 "no_match" hex]
      norm_num
    · push_neg at hex
      unfold scoreMatch
      rw [scoreLoop_fst_no_exact identifier (normalize identifier) _ 0 "no_match"
        (le_refl 0) hex]
      split_ifs with hz
      · norm_num
      · constructor
        · exact foldMax_ge_start identifier (normalize identifier) _ 0
        · exact foldMax_le_one identifier (normalize identifier) _ 0 (by norm_num)
  · intro hex
    exact scoreLoop_exact identifier (normalize identifier) _ 0 "no_match" hex
  · intro hne
    constructor
    · intro hz
      exact scoreLoop_floor identifier (normalize identifier) _ 0 "no_match"
        (le_refl 0) hne hz
    · intro hnz
      unfold scoreMatch
      rw [scoreLoop_fst_no_exact identifier (normalize identifier) _ 0 "no_match"
        (le_refl 0) hne]
      exact if_neg hnz

/-- A fixed concrete record used by witnesses. -/
def witnessRecord : LProduct := ⟨"p1", [("sku", .str "QQQ")]⟩

/-- C7 witness: the exact-match branch of the theorem at a concrete input
(the record's sku `QQQ` equals the identifier `qqq` after normalization). -/
theorem C7_scoreMatch_witness :
    (∃ v ∈ scoreCandidates witnessRecord none, normalize v = normalize "qqq") ∧
    scoreMatch "qqq" witnessRecord none = (1.0, "normalized_exact_match") := by
  have hmem : "QQQ" ∈ scoreCandidates witnessRecord none := by decide
  have hnorm : normalize "QQQ" = normalize "qqq" := by decide
  exact ⟨⟨"QQQ", hmem, hnorm⟩,
    (C7_scoreMatch "qqq" witnessRecord none).2.1 ⟨"QQQ", hmem, hnorm⟩⟩

/-! The lookup engine (`src/lookup/lookup.ts`) -/

/-- A filter's `field` is either a single field name or (for text search)
a list of field names. -/
inductive FField where
  | fld : String → FField
  | flds : List String → FField

structure SearchFilter where
  field : FField
  op : String
  value : String

structure SearchBody where
  filters : Option (List (List SearchFilter)) := none
  attributes : List String := []
  pagination : Option (ℕ × ℕ) := none

/-- The deterministic repository collaborator: `none` models a thrown
error, `some rows` the `data` of a successful response. -/
structure Client where
  searchProducts : SearchBody → Option (List LProduct)
  getProduct : String → Option (List LProduct)

structure Match where
  id : String
  sku : Option JVal
  label : Option JVal
  gtin : Option String
  matchedField : String
  confidence : ℚ
  reason : String
  raw : LProduct

structure LookupResult where
  selected : Option Match := none
  matches' : List Match
  plan : List String

structure LookupCfg where
  pageSize : ℕ := 5
  cacheEnabled : Bool := true
  cacheTtlMs : ℕ := 60000

/-- Stable descending sort by confidence:
`matches.sort((a, b) => b.confidence - a.confidence)`. -/
def sortMatches (ms : List Match) : List Match :=
  ms.mergeSort (fun a b => decide (b.confidence ≤ a.confidence))

/-- The selection expression at the end of `findByIdentifier`:
`matches[0] && (matches.length === 1 ||
matches[0].confidence - (matches[1]?.confidence ?? 0) >= 0.15)`. -/
def selectTop (ms : List Match) : Option Match :=
  match ms.head? with
  | none => none
  | some m0 =>
    if ms.length = 1 ∨ m0.confidence - ((ms[1]?.map Match.confidence).getD 0) ≥ 0.15
    then some m0 else none

/-- Sort the accumulated matches and attach the selection. -/
def assembleResult (ms : List Match) (plan : List String) : LookupResult :=
  let sorted := sortMatches ms
  { selected := selectTop sorted, matches' := sorted, plan := plan }

/-- The search body actually sent: configured attributes (deduplicated,
capped at the API limit of 50) and pagination added to the stage's body. -/
def mkSearchBody (sf : List String) (limit : ℕ) (body : SearchBody) : SearchBody :=
  { body with
    attributes := (dedupKeepOrder sf).take 50
    pagination := some (1, limit) }

/-- A match built from a returned row, scored against the identifier. -/
def mkMatch (identifier tag : String) (record : LProduct) : Match :=
  { id := record.id
    sku := mapGet record.toObj "sku"
    label := mapGet record.toObj "label"
    gtin := getFieldValue record "gtin"
    matchedField := tag
    confidence := (scoreMatch identifier record (some tag)).1
    reason := (scoreMatch identifier record (some tag)).2
    raw := record }

/-- Model of `executeSearch` without the plan side effect (the callers append the
tag, and `tag_failed` on `none`). -/
def executeSearch (C : Client) (sf : List String) (identifier : String) (limit : ℕ)
    (body : SearchBody) (tag : String) : Option (List Match) :=
  match C.searchProducts (mkSearchBody sf limit body) with
  | none => none
  | some rows => some (rows.map (mkMatch identifier tag))

def idTypeStr : IdentifierType → String
  | .id => "id"
  | .sku => "sku"
  | .mpn => "mpn"
  | .mno => "mno"
  | .gtin => "gtin"
  | .label => "label"
  | .unknown => "unknown"

/-- Decimal rendering of the fixed detection confidences as JS string
interpolation produces them in the plan entry. -/
def confStr (q : ℚ) : String :=
  if q = 1 then "1"
  else if q = 0.95 then "0.95"
  else if q = 0.9 then "0.9"
  else if q = 0.8 then "0.8"
  else if q = 0.7 then "0.7"
  else if q = 0.6 then "0.6"
  else "0"

/-- Strategy 2: the exact searches compatible with the resolved type, one
per configured search field. -/
def buildExactSearches (sf : List String) (ty : IdentifierType) (identifier : String) :
    List (SearchBody × String) :=
  sf.filterMap (fun field =>
    if field = "sku" ∧ (ty = .sku ∨ ty = .unknown) then
      some ({ filters := some [[⟨.fld "sku", "eq", identifier⟩]] }, "sku_eq")
    else if field = "gtin" ∧ ty = .gtin then
      some ({ filters := some [[⟨.fld "gtin", "eq", identifier⟩]] }, "gtin_eq")
    else if field = "label" ∧ ty = .label then
      some ({ filters := some [(splitNonAlnum identifier).map
        (fun token => ⟨.fld "label", "like", token⟩)] }, "label_like_tokens")
    else if "attributes.".data.isPrefixOf field.data ∧
        (ty = .mpn ∨ ty = .mno ∨ ty = .unknown) then
      some ({ filters := some [[⟨.fld field, "eq", identifier⟩]] }, field ++ "_eq")
    else none)

/-- The strategy-2 loop: accumulate matches, record `tag` (and
`tag_failed` on a caught error) in the plan, early-exit when a result of
confidence at least 0.99 appears. -/
def runExactLoop (C : Client) (sf : List String) (identifier : String) (limit : ℕ) :
    List (SearchBody × String) → List Match × List String
  | [] => ([], [])
  | (body, tag) :: rest =>
    match executeSearch C sf identifier limit body tag with
    | none =>
      let p := runExactLoop C sf identifier limit rest
      (p.1, tag :: (tag ++ "_failed") :: p.2)
    | some results =>
      if results.any (fun m => m.confidence ≥ 0.99) then (results, [tag])
      else
        let p := runExactLoop C sf identifier limit rest
        (results ++ p.1, tag :: p.2)

/-- Strategy 1: direct ID lookup, returning a finished result on a hit,
or the plan accumulated so far. -/
def directStage (C : Client) (plan0 : List String) (ty : IdentifierType)
    (identifier : String) : Option LookupResult × List String :=
  if ty = .id then
    match C.getProduct identifier with
    | none => (none, plan0 ++ ["direct_id_lookup", "direct_id_lookup_failed"])
    | some rows =>
      match rows.head? with
      | some record =>
        let m : Match :=
          { id := record.id
            sku := mapGet record.toObj "sku"
            label := mapGet record.toObj "label"
            gtin := getFieldValue record "gtin"
            matchedField := "id"
            confidence := 1.0
            reason := "direct_id_lookup"
            raw := record }
        (some { selected := some m, matches' := [m],
                plan := plan0 ++ ["direct_id_lookup"] }, [])
      | none => (none, plan0 ++ ["direct_id_lookup"])
  else (none, plan0)

/-- The cache-free body of `findByIdentifier`: detection, then the four
staged strategies, then sorting and selection. -/
def computeLookup (C : Client) (sf : List String) (identifier : String)
    (explicitType : Option IdentifierType) (limit : ℕ) : LookupResult :=
  let detection := detectIdentifierType identifier
  let ty := explicitType.getD detection.type
  let plan0 : List String :=
    ["detected_type:" ++ idTypeStr ty ++ "(" ++ confStr detection.confidence ++ ")",
     "search_fields:" ++ String.intercalate "," sf]
  match directStage C plan0 ty identifier with
  | (some r, _) => r
  | (none, plan1) =>
    let p2 := runExactLoop C sf identifier limit (buildExactSearches sf ty identifier)
    let ms2 := p2.1
    let plan2 := plan1 ++ p2.2
    let p3 : List Match × List String :=
      if ms2.length = 0 then
        match executeSearch C sf identifier limit
            { filters := some [[⟨.flds sf, "text_search", identifier⟩]] }
            "text_search_multi" with
        | none => (ms2, plan2 ++ ["text_search_multi", "text_search_multi_failed"])
        | some res => (ms2 ++ res, plan2 ++ ["text_search_multi"])
      else (ms2, plan2)
    let p4 : List Match × List String :=
      if p3.1.length = 0 then
        let tokens := splitNonAlnum identifier
        let firstToken := tokens.head?.getD identifier
        let broadFilters := (sf.take 3).map
          (fun field => (⟨.fld field, "like", firstToken⟩ : SearchFilter))
        match executeSearch C sf identifier limit
            { filters := some [broadFilters] } "broad_like_search" with
        | none => (p3.1, p3.2 ++ ["broad_like_search", "broad_like_search_failed"])
        | some res => (p3.1 ++ res, p3.2 ++ ["broad_like_search"])
      else p3
    assembleResult p4.1 p4.2

/-! Multi-criteria search (`findProducts`) -/

structure Criteria where
  sku : Option String := none
  mpn : Option String := none
  mno : Option String := none
  label : Option String := none
  gtin : Option String := none
  fuzzySearch : Option String := none
  limit : Option ℕ := none
  returnFields : Option (List String) := none

/-- Truthiness of an optional string criterion (`if (criteria.x)`). -/
def jsTruthyStr : Option String → Bool
  | some s => s != ""
  | none => false

/-- Model of `record.sku === criteria.sku` guarded by `criteria.sku` truthiness. -/
def skuEqCheck (cr : Option String) (rv : Option JVal) : Bool :=
  match cr, rv with
  | some s, some (.str s') => (s != "") && (s == s')
  | _, _ => false

/-- Model of `this.getFieldValue(record, 'gtin') === criteria.gtin` guarded by
`criteria.gtin` truthiness. -/
def gtinEqCheck (cr : Option String) (record : LProduct) : Bool :=
  match cr with
  | some s => (s != "") && (getFieldValue record "gtin" == some s)
  | none => false

/-- The filter groups `findProducts` builds, in source order. -/
def findProductsFilters (sf : List String) (cr : Criteria) : List (List SearchFilter) :=
  let customAttrFields := sf.filter
    (fun f => "attributes.".data.isPrefixOf f.data)
  (match cr.sku with
    | some s => if s = "" then [] else [[⟨.fld "sku", "eq", s⟩]]
    | none => []) ++
  (match cr.gtin with
    | some s => if s = "" then [] else [[⟨.fld "gtin", "eq", s⟩]]
    | none => []) ++
  (match cr.label with
    | some s =>
      if s = "" then []
      else [(splitNonAlnum s).map (fun token => (⟨.fld "label", "like", token⟩ : SearchFilter))]
    | none => []) ++
  (match cr.mpn with
    | some s =>
      if s = "" ∨ customAttrFields = [] then []
      else [[⟨.fld (customAttrFields.head?.getD ""), "eq", s⟩]]
    | none => []) ++
  (match cr.mno with
    | some s =>
      if s = "" ∨ customAttrFields.length ≤ 1 then []
      else [[⟨.fld ((customAttrFields[1]?).getD ""), "eq", s⟩]]
    | none => []) ++
  (match cr.fuzzySearch with
    | some s => if s = "" then [] else [[⟨.flds sf, "text_search", s⟩]]
    | none => [])

/-- The body `findProducts` sends to the repository. -/
def findProductsBody (sf : List String) (cr : Criteria) : SearchBody :=
  let filters := findProductsFilters sf cr
  { filters := if filters.length > 0 then some filters else none
    attributes := (dedupKeepOrder (sf ++ cr.returnFields.getD [])).take 50
    pagination := some (1, cr.limit.getD 5) }

/-- The match built from one returned row of the multi-criteria search. -/
def mkCriteriaMatch (cr : Criteria) (record : LProduct) : Match :=
  let c1 : ℚ := if skuEqCheck cr.sku (mapGet record.toObj "sku") then max 0.5 0.9 else 0.5
  let c2 : ℚ := if gtinEqCheck cr.gtin record then max c1 0.9 else c1
  { id := record.id
    sku := mapGet record.toObj "sku"
    label := mapGet record.toObj "label"
    gtin := getFieldValue record "gtin"
    matchedField := "multi_criteria"
    confidence := c2
    reason := "multi_criteria_match"
    raw := record }

/-- Model of `findProducts`: one repository call, mapped and sorted matches, the
first match selected unconditionally; an empty failure result when the
call throws. -/
def findProducts (C : Client) (sf : List String) (cr : Criteria) : LookupResult :=
  match C.searchProducts (findProductsBody sf cr) with
  | none =>
    { selected := none, matches' := [],
      plan := ["multi_criteria_search", "multi_criteria_search_failed"] }
  | some rows =>
    let sorted := sortMatches (rows.map (mkCriteriaMatch cr))
    { selected := sorted.head?, matches' := sorted, plan := ["multi_criteria_search"] }

/-! Sorting and selection facts -/

theorem sortMatches_sorted (ms : List Match) :
    List.Pairwise (fun a b => b.confidence ≤ a.confidence) (sortMatches ms) := by
  have htrans : ∀ a b c : Match, decide (b.confidence ≤ a.confidence) = true →
      decide (c.confidence ≤ b.confidence) = true →
      decide (c.confidence ≤ a.confidence) = true := by
    intro a b c hab hbc
    rw [decide_eq_true_eq] at *
    exact le_trans hbc hab
  have htotal : ∀ a b : Match,
      (decide (b.confidence ≤ a.confidence) || decide (a.confidence ≤ b.confidence)) = true := by
    intro a b
    rcases le_total b.confidence a.confidence with h | h <;> simp [h]
  exact (List.sorted_mergeSort htrans htotal ms).imp (fun h => by simpa using h)

theorem sortMatches_perm (ms : List Match) : (sortMatches ms).Perm ms :=
  List.mergeSort_perm ms _

theorem sortMatches_length (ms : List Match) : (sortMatches ms).length = ms.length :=
  List.length_mergeSort ms

theorem selectTop_form (ms : List Match) :
    selectTop ms = (match ms with
      | [] => none
      | [m] => some m
      | m1 :: m2 :: _ =>
        if m1.confidence - m2.confidence ≥ 0.15 then some m1 else none) := by
  match ms with
  | [] => rfl
  | [m] => simp [selectTop]
  | m1 :: m2 :: rest => simp [selectTop]

theorem assembleResult_good (ms : List Match) (plan : List String) :
    List.Pairwise (fun a b => b.confidence ≤ a.confidence)
      (assembleResult ms plan).matches' ∧
    (assembleResult ms plan).selected =
      (match (assembleResult ms plan).matches' with
        | [] => none
        | [m] => some m
        | m1 :: m2 :: _ =>
          if m1.confidence - m2.confidence ≥ 0.15 then some m1 else none) := by
  unfold assembleResult
  exact ⟨sortMatches_sorted ms, selectTop_form (sortMatches ms)⟩

theorem directStage_some (C : Client) (plan0 : List String) (ty : IdentifierType)
    (identifier : String) (r : LookupResult) (rest : List String)
    (h : directStage C plan0 ty identifier = (some r, rest)) :
    ∃ m pl, r = { selected := some m, matches' := [m], plan := pl } := by
  unfold directStage at h
  split_ifs at h with hty
  · cases hC : C.getProduct identifier with
    | none =>
      rw [hC] at h
      simp at h
    | some rows =>
      rw [hC] at h
      dsimp only at h
      cases hrows : rows.head? with
      | some record =>
        rw [hrows] at h
        dsimp only at h
        rw [Prod.mk.injEq] at h
        obtain ⟨h1, -⟩ := h
        rw [Option.some.injEq] at h1
        exact ⟨_, _, h1.symm⟩
      | none =>
        rw [hrows] at h
        simp at h
  · simp at h

/-- C2: the matches of every result of `findByIdentifier`'s computation are
sorted by confidence descending, and `selected` is the top match exactly
when there is one match or the top confidence beats the second best by at
least the fixed 0.15 margin; otherwise it is absent. -/
theorem C2_selection (C : Client) (sf : List String) (identifier : String)
    (ex : Option IdentifierType) (limit : ℕ) :
    List.Pairwise (fun a b => b.confidence ≤ a.confidence)
      (computeLookup C sf identifier ex limit).matches' ∧
    (computeLookup C sf identifier ex limit).selected =
      (match (computeLookup C sf identifier ex limit).matches' with
        | [] => none
        | [m] => some m
        | m1 :: m2 :: _ =>
          if m1.confidence - m2.confidence ≥ 0.15 then some m1 else none) := by
  unfold computeLookup
  dsimp only
  rcases hds : directStage C _ (ex.getD (detectIdentifierType identifier).type) identifier
    with ⟨o, plan1⟩
  cases o with
  | none =>
    dsimp only
    exact assembleResult_good _ _
  | some r =>
    obtain ⟨m, pl, rfl⟩ := directStage_some C _ _ _ r plan1 hds
    simp

/-- A match fixture carrying only a confidence, for concrete examples. -/
def demoMatch (c : ℚ) : Match :=
  { id := "x", sku := none, label := none, gtin := none, matchedField := "t",
    confidence := c, reason := "r", raw := ⟨"x", []⟩ }

/-- The margin rule at the two confidences the specification names:
[0.9, 0.8] is ambiguous (margin 0.1), [0.95, 0.7] selects the top. -/
theorem selectTop_margin_examples :
    selectTop [demoMatch 0.9, demoMatch 0.8] = none ∧
    selectTop [demoMatch 0.95, demoMatch 0.7] = some (demoMatch 0.95) := by
  constructor
  · norm_num [selectTop, demoMatch]
  · norm_num [selectTop, demoMatch]

/-- C10: `findProducts` sorts by confidence descending and selects the
first match unconditionally (no 0.15 ambiguity margin), and a thrown
repository call yields empty matches, no selection and the failure marker
in the plan. -/
theorem C10_findProducts (C : Client) (sf : List String) (cr : Criteria) :
    (C.searchProducts (findProductsBody sf cr) = none →
      findProducts C sf cr =
        { selected := none, matches' := [],
          plan := ["multi_criteria_search", "multi_criteria_search_failed"] }) ∧
    (∀ rows, C.searchProducts (findProductsBody sf cr) = some rows →
      List.Pairwise (fun a b => b.confidence ≤ a.confidence)
        (findProducts C sf cr).matches' ∧
      (findProducts C sf cr).matches' = sortMatches (rows.map (mkCriteriaMatch cr)) ∧
      (findProducts C sf cr).selected =
        (sortMatches (rows.map (mkCriteriaMatch cr))).head? ∧
      (rows ≠ [] → ((findProducts C sf cr).selected).isSome = true)) := by
  constructor
  · intro h
    unfold findProducts
    rw [h]
  · intro rows h
    unfold findProducts
    rw [h]
    dsimp only
    refine ⟨sortMatches_sorted _, rfl, rfl, ?_⟩
    intro hne
    have hlen : (sortMatches (rows.map (mkCriteriaMatch cr))).length = rows.length := by
      rw [sortMatches_length, List.length_map]
    cases hs : sortMatches (rows.map (mkCriteriaMatch cr)) with
    | nil =>
      exfalso
      rw [hs] at hlen
      exact hne (List.length_eq_zero.mp hlen.symm)
    | cons a t =>
      rfl

/-- Client fixture whose search always returns two records. -/
def wClientTwo : Client :=
  ⟨fun _ => some [⟨"a", []⟩, ⟨"b", []⟩], fun _ => none⟩

def wSF : List String := ["sku", "label", "gtin"]

/-- C10 witness: with two records matching no criterion both confidences
are 0.5 (zero margin) and `selected` is still present. -/
theorem C10_findProducts_witness :
    ((findProducts wClientTwo wSF {}).selected).isSome = true ∧
    ((findProducts wClientTwo wSF {}).matches'.map
      (fun m => m.confidence)).Perm [0.5, 0.5] := by
  have h := (C10_findProducts wClientTwo wSF {}).2 [⟨"a", []⟩, ⟨"b", []⟩] rfl
  refine ⟨h.2.2.2 (by simp), ?_⟩
  rw [h.2.1]
  have hperm := (sortMatches_perm ([⟨"a", []⟩, ⟨"b", []⟩].map (mkCriteriaMatch {}))).map
    (fun m => m.confidence)
  have hval : (([⟨"a", []⟩, ⟨"b", []⟩].map (mkCriteriaMatch {})).map
      (fun m => m.confidence)) = [0.5, 0.5] := rfl
  rw [hval] at hperm
  exact hperm

/-! The result cache of `PlytixLookup` -/

structure CacheEntry where
  result : LookupResult
  timestamp : ℕ
  ttl : ℕ

/-- Decimal digits of a natural number, as JS template interpolation
renders `${limit}`. -/
def natChars (n : ℕ) : List Char :=
  if n = 0 then ['0']
  else ((Nat.digits 10 n).map (fun d => Char.ofNat (48 + d))).reverse

def natStr (n : ℕ) : String := String.mk (natChars n)

/-- Model of `explicit ?? 'auto'` as rendered into the cache key. -/
def exStr : Option IdentifierType → String
  | some t => idTypeStr t
  | none => "auto"

/-- Model of `lookup:${identifier}:${explicit ?? 'auto'}:${limit ?? pageSize}`
(the limit argument always carries the call-site default 5). -/
def getCacheKey (identifier : String) (explicit : Option IdentifierType)
    (limit : ℕ) : String :=
  "lookup:" ++ identifier ++ ":" ++ exStr explicit ++ ":" ++ natStr limit

/-- Model of `getFromCache`: miss when disabled or absent; lazy expiry deletes the
entry and misses. -/
def getFromCache (cfg : LookupCfg) (cache : List (String × CacheEntry))
    (now : ℕ) (key : String) : Option LookupResult × List (String × CacheEntry) :=
  if cfg.cacheEnabled = false then (none, cache)
  else
    match mapGet cache key with
    | none => (none, cache)
    | some entry =>
      if entry.timestamp + entry.ttl < now then (none, mapDelete cache key)
      else (some entry.result, cache)

/-- Model of `setCache`: insert/replace, then one expiry sweep when more than 100
entries are held. -/
def setCache (cfg : LookupCfg) (cache : List (String × CacheEntry))
    (now : ℕ) (key : String) (result : LookupResult) : List (String × CacheEntry) :=
  if cfg.cacheEnabled = false then cache
  else
    let c1 := mapSet cache key ⟨result, now, cfg.cacheTtlMs⟩
    if c1.length > 100 then
      c1.filter (fun p => !(decide (p.2.timestamp + p.2.ttl < now)))
    else c1

/-- Model of `findByIdentifier` with the cache threaded explicitly; each invocation
observes one clock value `now`.  Both the direct-ID branch and the staged
path of the source store exactly the returned result under the key, which
is what the single `setCache` here does. -/
def findByIdentifier (C : Client) (sf : List String) (cfg : LookupCfg)
    (cache : List (String × CacheEntry)) (now : ℕ) (identifier : String)
    (explicitType : Option IdentifierType) (limit : ℕ) :
    LookupResult × List (String × CacheEntry) :=
  let key := getCacheKey identifier explicitType limit
  match getFromCache cfg cache now key with
  | (some r, cache') => (r, cache')
  | (none, cache') =>
    let r := computeLookup C sf identifier explicitType limit
    (r, setCache cfg cache' now key r)

structure Invocation where
  now : ℕ
  identifier : String
  explicitType : Option IdentifierType
  limit : ℕ

/-- A sequence of `findByIdentifier` invocations against one instance,
returning the results in order. -/
def runLookups (C : Client) (sf : List String) (cfg : LookupCfg) :
    List (String × CacheEntry) → List Invocation → List LookupResult
  | _, [] => []
  | cache, inv :: rest =>
    let p := findByIdentifier C sf cfg cache inv.now inv.identifier
      inv.explicitType inv.limit
    p.1 :: runLookups C sf cfg p.2 rest

/-! Injectivity of the cache key -/

theorem digitChar_ne_colon : ∀ d < 10, Char.ofNat (48 + d) ≠ ':' := by decide

theorem digitChar_inj : ∀ d1 < 10, ∀ d2 < 10,
    Char.ofNat (48 + d1) = Char.ofNat (48 + d2) → d1 = d2 := by decide

theorem natChars_colonFree (n : ℕ) : ':' ∉ natChars n := by
  unfold natChars
  split_ifs with h0
  · decide
  · intro hmem
    rw [List.mem_reverse, List.mem_map] at hmem
    obtain ⟨d, hd, hdc⟩ := hmem
    exact digitChar_ne_colon d (Nat.digits_lt_base (by norm_num) hd) hdc

theorem digitList_map_inj (l1 l2 : List ℕ) (h1 : ∀ x ∈ l1, x < 10)
    (h2 : ∀ x ∈ l2, x < 10)
    (h : l1.map (fun d => Char.ofNat (48 + d)) = l2.map (fun d => Char.ofNat (48 + d))) :
    l1 = l2 := by
  induction l1 generalizing l2 with
  | nil => cases l2 with
    | nil => rfl
    | cons b t => cases h
  | cons a s ih =>
    cases l2 with
    | nil => cases h
    | cons b t =>
      rw [List.map_cons, List.map_cons, List.cons.injEq] at h
      have ha := h1 a (List.mem_cons_self a s)
      have hb := h2 b (List.mem_cons_self b t)
      rw [digitChar_inj a ha b hb h.1,
        ih t (fun x hx => h1 x (List.mem_cons_of_mem a hx))
          (fun x hx => h2 x (List.mem_cons_of_mem b hx)) h.2]

theorem natChars_inj (m n : ℕ) (h : natChars m = natChars n) : m = n := by
  unfold natChars at h
  split_ifs at h with hm hn hn
  · rw [hm, hn]
  · exfalso
    have := congrArg List.reverse h
    rw [List.reverse_reverse] at this
    have hd : Nat.digits 10 n = [0] := by
      apply digitList_map_inj
      · intro x hx
        exact Nat.digits_lt_base (by norm_num) hx
      · intro x hx
        rw [List.mem_singleton] at hx
        rw [hx]; norm_num
      · rw [← this]; rfl
    have := Nat.ofDigits_digits 10 n
    rw [hd] at this
    simp [Nat.ofDigits] at this
    exact hn this.symm
  · exfalso
    have := congrArg List.reverse h
    rw [List.reverse_reverse] at this
    have hd : Nat.digits 10 m = [0] := by
      apply digitList_map_inj
      · intro x hx
        exact Nat.digits_lt_base (by norm_num) hx
      · intro x hx
        rw [List.mem_singleton] at hx
        rw [hx]; norm_num
      · rw [this]; rfl
    have := Nat.ofDigits_digits 10 m
    rw [hd] at this
    simp [Nat.ofDigits] at this
    exact hm this.symm
  · have := congrArg List.reverse h
    rw [List.reverse_reverse, List.reverse_reverse] at this
    have hd := digitList_map_inj (Nat.digits 10 m) (Nat.digits 10 n)
      (fun x hx => Nat.digits_lt_base (by norm_num) hx)
      (fun x hx => Nat.digits_lt_base (by norm_num) hx) this
    have hm' := Nat.ofDigits_digits 10 m
    rw [hd, Nat.ofDigits_digits 10 n] at hm'
    exact hm'.symm

theorem exStr_colonFree (e : Option IdentifierType) : ':' ∉ (exStr e).data := by
  rcases e with - | t
  · decide
  · cases t <;> decide

theorem exStr_inj (e1 e2 : Option IdentifierType) (h : exStr e1 = exStr e2) :
    e1 = e2 := by
  cases e1 with
  | none =>
    cases e2 with
    | none => rfl
    | some t2 => cases t2 <;> exact absurd h (by decide)
  | some t1 =>
    cases e2 with
    | none => cases t1 <;> exact absurd h (by decide)
    | some t2 => cases t1 <;> cases t2 <;> first | rfl | exact absurd h (by decide)

theorem splitColon (a1 : List Char) : ∀ (a2 r1 r2 : List Char), ':' ∉ a1 → ':' ∉ a2 →
    a1 ++ ':' :: r1 = a2 ++ ':' :: r2 → a1 = a2 ∧ r1 = r2 := by
  induction a1 with
  | nil =>
    intro a2 r1 r2 hx1 h2 h
    cases a2 with
    | nil =>
      rw [List.nil_append, List.nil_append, List.cons.injEq] at h
      exact ⟨rfl, h.2⟩
    | cons c t =>
      rw [List.nil_append, List.cons_append, List.cons.injEq] at h
      exact absurd (h.1 ▸ List.mem_cons_self c t) h2
  | cons c1 t1 ih =>
    intro a2 r1 r2 h1 h2 h
    cases a2 with
    | nil =>
      rw [List.nil_append, List.cons_append, List.cons.injEq] at h
      exact absurd (h.1 ▸ List.mem_cons_self c1 t1) h1
    | cons c2 t2 =>
      rw [List.cons_append, List.cons_append, List.cons.injEq] at h
      obtain ⟨rfl, h⟩ := h
      obtain ⟨rfl, hr⟩ := ih t2 r1 r2 (fun hm => h1 (List.mem_cons_of_mem _ hm))
        (fun hm => h2 (List.mem_cons_of_mem _ hm)) h
      exact ⟨rfl, hr⟩

theorem getCacheKey_inj (i1 i2 : String) (e1 e2 : Option IdentifierType)
    (l1 l2 : ℕ) (h : getCacheKey i1 e1 l1 = getCacheKey i2 e2 l2) :
    i1 = i2 ∧ e1 = e2 ∧ l1 = l2 := by
  have hdata := congrArg String.data h
  simp only [getCacheKey, natStr, String.data_append, List.append_assoc] at hdata
  have hrev := congrArg List.reverse hdata
  simp only [List.reverse_append, List.reverse_cons, List.reverse_nil,
    List.nil_append, List.append_assoc, List.cons_append] at hrev
  obtain ⟨hn, hrest⟩ := splitColon _ _ _ _
    (by intro hm; exact natChars_colonFree l1 (List.mem_reverse.mp hm))
    (by intro hm; exact natChars_colonFree l2 (List.mem_reverse.mp hm)) hrev
  obtain ⟨he, hi⟩ := splitColon _ _ _ _
    (by intro hm; exact exStr_colonFree e1 (List.mem_reverse.mp hm))
    (by intro hm; exact exStr_colonFree e2 (List.mem_reverse.mp hm)) hrest
  refine ⟨?_, ?_, ?_⟩
  · have := List.append_cancel_right hi
    have hd := List.reverse_injective this
    exact String.ext hd
  · exact exStr_inj e1 e2 (String.ext (List.reverse_injective he))
  · exact natChars_inj l1 l2 (List.reverse_injective hn)

/-! Cache transparency -/

theorem mapGet_some_mem {α β : Type} [DecidableEq α] {m : List (α × β)} {k : α}
    {v : β} (h : mapGet m k = some v) : (k, v) ∈ m := by
  unfold mapGet at h
  cases hf : m.find? (fun p => decide (p.1 = k)) with
  | none => rw [hf] at h; cases h
  | some p =>
    rw [hf, Option.map_some'] at h
    obtain rfl := Option.some.inj h
    have hm := List.mem_of_find?_eq_some hf
    have hp := List.find?_some hf
    rw [decide_eq_true_eq] at hp
    rw [← hp]
    simpa using hm

theorem mem_mapSet {α β : Type} [DecidableEq α] {m : List (α × β)} {k : α}
    {v : β} {p : α × β} (h : p ∈ mapSet m k v) : p ∈ m ∨ p = (k, v) := by
  unfold mapSet at h
  split_ifs at h with hc
  · rw [List.mem_map] at h
    obtain ⟨q, hq, hpq⟩ := h
    by_cases hqk : q.1 = k
    · right; rw [← hpq, if_pos hqk]
    · left; rw [← hpq, if_neg hqk]; exact hq
  · rw [List.mem_append] at h
    rcases h with h | h
    · left; exact h
    · right; simpa using h

/-- Every cache entry stores the cache-free lookup result of some
invocation whose key it is filed under. -/
def cacheInv (C : Client) (sf : List String) (cache : List (String × CacheEntry)) :
    Prop :=
  ∀ p ∈ cache, ∃ idf ex l, getCacheKey idf ex l = p.1 ∧
    p.2.result = computeLookup C sf idf ex l

theorem cacheInv_set (C : Client) (sf : List String) (cfg : LookupCfg)
    (cache : List (String × CacheEntry)) (now : ℕ) (idf : String)
    (ex : Option IdentifierType) (l : ℕ) (hI : cacheInv C sf cache) :
    cacheInv C sf (setCache cfg cache now (getCacheKey idf ex l)
      (computeLookup C sf idf ex l)) := by
  have hc1 : cacheInv C sf (mapSet cache (getCacheKey idf ex l)
      ⟨computeLookup C sf idf ex l, now, cfg.cacheTtlMs⟩) := by
    intro p hp
    rcases mem_mapSet hp with hold | rfl
    · exact hI p hold
    · exact ⟨idf, ex, l, rfl, rfl⟩
  unfold setCache
  dsimp only
  split_ifs with hd hlen
  · exact hI
  · exact fun p hp => hc1 p (List.mem_of_mem_filter hp)
  · exact hc1

theorem cacheInv_delete (C : Client) (sf : List String)
    (cache : List (String × CacheEntry)) (k : String) (hI : cacheInv C sf cache) :
    cacheInv C sf (mapDelete cache k) :=
  fun p hp => hI p (List.mem_of_mem_filter hp)

theorem runLookups_disabled (C : Client) (sf : List String) (cfg : LookupCfg)
    (hcd : cfg.cacheEnabled = false) (invs : List Invocation) :
    ∀ cache, runLookups C sf cfg cache invs =
      invs.map (fun inv => computeLookup C sf inv.identifier inv.explicitType inv.limit) := by
  induction invs with
  | nil => intro cache; rfl
  | cons inv rest ih =>
    intro cache
    unfold runLookups findByIdentifier getFromCache setCache
    simp only [hcd, if_pos]
    rw [List.map_cons, ih]

theorem runLookups_enabled (C : Client) (sf : List String) (cfg : LookupCfg)
    (hce : cfg.cacheEnabled = true) (invs : List Invocation) :
    ∀ cache, cacheInv C sf cache →
      runLookups C sf cfg cache invs =
        invs.map (fun inv => computeLookup C sf inv.identifier inv.explicitType inv.limit) := by
  induction invs with
  | nil => intro cache hI; rfl
  | cons inv rest ih =>
    intro cache hI
    unfold runLookups findByIdentifier getFromCache
    dsimp only
    have hne : ¬ (cfg.cacheEnabled = false) := by
      rw [hce]
      intro hk
      cases hk
    rw [if_neg hne]
    cases hg : mapGet cache (getCacheKey inv.identifier inv.explicitType inv.limit) with
    | none =>
      dsimp only
      rw [List.map_cons]
      exact congrArg _ (ih _ (cacheInv_set C sf cfg cache inv.now inv.identifier
        inv.explicitType inv.limit hI))
    | some entry =>
      dsimp only
      by_cases hexp : entry.timestamp + entry.ttl < inv.now
      · rw [if_pos hexp]
        dsimp only
        rw [List.map_cons]
        exact congrArg _ (ih _ (cacheInv_set C sf cfg (mapDelete cache _) inv.now
          inv.identifier inv.explicitType inv.limit (cacheInv_delete C sf cache _ hI)))
      · rw [if_neg hexp]
        dsimp only
        obtain ⟨idf, ex, l, hkey, hres⟩ :=
          hI _ (mapGet_some_mem hg)
        obtain ⟨rfl, rfl, rfl⟩ := getCacheKey_inj idf inv.identifier ex
          inv.explicitType l inv.limit hkey
        rw [List.map_cons, ← hres]
        exact congrArg _ (ih cache hI)

/-- C8: over any sequence of invocations against a deterministic
repository, every `LookupResult` returned with the cache enabled equals
the one returned with the cache disabled (even under different TTLs);
the cache is an optimization only. -/
theorem C8_cache_transparent (C : Client) (sf : List String) (ps t1 t2 : ℕ)
    (invs : List Invocation) :
    runLookups C sf ⟨ps, true, t1⟩ [] invs =
      runLookups C sf ⟨ps, false, t2⟩ [] invs := by
  rw [runLookups_enabled C sf ⟨ps, true, t1⟩ rfl invs []
      (fun p hp => absurd hp (List.not_mem_nil p)),
    runLookups_disabled C sf ⟨ps, false, t2⟩ rfl invs []]

/-! Hydration-side data model (`src/types.ts`, `src/mappers.ts`,
`src/hydration.ts`, `src/hierarchy.ts`) -/

inductive RelName where
  | replaces | includes | modules | has_optional_accessory
deriving DecidableEq, Repr

def REL_FIELDS : List RelName :=
  [.replaces, .includes, .modules, .has_optional_accessory]

/-- The environment-derived configuration consumed by the hydrators. -/
structure HEnv where
  SKU_LEVEL_ATTR_SLUG : Option String := none
  FAMILY_SKU_ATTR_SLUG : Option String := none
  PARENT_SKU_ATTR_SLUG : Option String := none
  VARIANT_SKU_ATTR_SLUG : Option String := none
  BRAND_SKU_ATTR_SLUG : Option String := none
  FAMILY_SKU_REGEX : Option String := none
  PARENT_SKU_REGEX : Option String := none
  VARIANT_SKU_REGEX : Option String := none
  PLYTIX_MPN_ATTR_SLUG : Option String := none
  PLYTIX_LABEL_ATTR_SLUG : Option String := none
  PLYTIX_LIST_PRICE_ATTR_SLUG : Option String := none

/-- Model of `HydratedRef` (the SummaryRef shape): the mapper copies attribute
values through `?? null` without a type check, so `sku`/`mpn`/`label`
hold whatever JSON value was found, `JVal.nullv` for null. -/
structure HydratedRef where
  id : String
  sku : JVal
  mpn : JVal
  label : JVal
  listPrice : Option ℚ

/-- A relationship field holds either the raw foreign-ID array or the
hydrated summary array. -/
inductive RelVal where
  | raw : List JVal → RelVal
  | hyd : List HydratedRef → RelVal

/-- A product record on the hydration side. `attributes ?? {}` is folded
into the `[]` default. -/
structure Product where
  id : String
  sku : Option String := none
  attributes : List (String × JVal) := []
  replaces : Option RelVal := none
  includes : Option RelVal := none
  modules : Option RelVal := none
  has_optional_accessory : Option RelVal := none

def Product.getRel (p : Product) : RelName → Option RelVal
  | .replaces => p.replaces
  | .includes => p.includes
  | .modules => p.modules
  | .has_optional_accessory => p.has_optional_accessory

def Product.setRel (p : Product) : RelName → RelVal → Product
  | .replaces, v => { p with replaces := some v }
  | .includes, v => { p with includes := some v }
  | .modules, v => { p with modules := some v }
  | .has_optional_accessory, v => { p with has_optional_accessory := some v }

/-- Model of `a ?? b` for JSON values: null and undefined fall through. -/
def jcoalesce : Option JVal → JVal
  | some .nullv => .nullv
  | some v => v
  | none => .nullv

/-- Model of `a ?? b` on optional strings. -/
def jsNullish (a b : Option String) : Option String :=
  match a with
  | some s => some s
  | none => b

def parseDigits : List Char → Option ℕ
  | [] => none
  | l => if l.all Char.isDigit
      then some (l.foldl (fun acc c => 10 * acc + (c.toNat - 48)) 0)
      else none

/-- Modelled JS `Number(string)` on the decimal literals occurring in the
data: optional sign, integer and/or fractional digits; the empty or
blank string is 0; anything else is NaN (`none`).  Scientific notation,
hex/binary literals and Infinity are outside the modelled value universe. -/
def jsNumber (s : String) : Option ℚ :=
  let t := jsTrim s
  if t = "" then some 0
  else
    let signed : ℚ × List Char :=
      match t.data with
      | '-' :: r => (-1, r)
      | '+' :: r => (1, r)
      | r => (1, r)
    match splitOnChar '.' signed.2 with
    | [ip] => (parseDigits ip).map (fun n => signed.1 * n)
    | [ip, fp] =>
      let ipv := if ip = [] then some 0 else parseDigits ip
      let fpv := if fp = [] then some 0 else parseDigits fp
      match ipv, fpv with
      | some a, some b => some (signed.1 * ((a : ℚ) + (b : ℚ) / 10 ^ fp.length))
      | _, _ => none
    | _ => none

/-- Model of `toNumberOrNull` / `toNum`: strings via `Number`, numbers as-is,
everything else (booleans, null, undefined, objects) is NaN hence null. -/
def toNumberOrNull : Option JVal → Option ℚ
  | some (.str s) => jsNumber s
  | some (.num q) => some q
  | _ => none

/-- Model of `mapToHydratedRef`: build the summary shape through the configured
(or default) attribute aliases, with every miss an explicit null. -/
def mapToHydratedRef (p : Product) (env : HEnv) : HydratedRef :=
  let attrs := p.attributes
  let mpnKey := jsOr env.PLYTIX_MPN_ATTR_SLUG "mpn"
  let labelKey := jsOr env.PLYTIX_LABEL_ATTR_SLUG "name"
  let priceKey := jsOr env.PLYTIX_LIST_PRICE_ATTR_SLUG "list_price"
  { id := p.id
    sku := match p.sku with
      | some s => .str s
      | none => jcoalesce (mapGet attrs "sku")
    mpn := jcoalesce (mapGet attrs mpnKey)
    label := jcoalesce (mapGet attrs labelKey)
    listPrice := toNumberOrNull (mapGet attrs priceKey) }

/-! The relationship hydrator (`hydrateRelationships`) -/

/-- Model of `arr.filter((x): x is string => typeof x === "string")`. -/
def stringsOf (arr : List JVal) : List String :=
  arr.filterMap (fun v => match v with | .str s => some s | _ => none)

/-- Model of `relationshipFilter?.filter(f => REL_FIELDS.includes(f)) ?? REL_FIELDS`. -/
def effectiveRelFields (filter : Option (List RelName)) : List RelName :=
  match filter with
  | some l => l.filter (fun f => REL_FIELDS.contains f)
  | none => REL_FIELDS

/-- One iteration of the loop collecting `idSet` and `fieldIds`: a field
whose array value is non-empty contributes its string-typed IDs. -/
def collectStep (product : Product)
    (acc : List String × List (RelName × List String)) (f : RelName) :
    List String × List (RelName × List String) :=
  match product.getRel f with
  | some (.raw arr) =>
    if arr.length ≠ 0 then
      let ids := stringsOf arr
      (ids.foldl insertUniq acc.1, mapSet acc.2 f ids)
    else acc
  | some (.hyd arr) =>
    if arr.length ≠ 0 then (acc.1, mapSet acc.2 f []) else acc
  | none => acc

/-- The collected `idSet` (first component, deduplicated in insertion
order) and `fieldIds` map (second component) over the target fields. -/
def collectRel (product : Product) (fields : List RelName) :
    List String × List (RelName × List String) :=
  fields.foldl (collectStep product) ([], [])

/-- Model of `byId`: `new Map` filled with `byId.set(p.id, mapToHydratedRef(p, env))`. -/
def buildById (fetched : List Product) (env : HEnv) : List (String × HydratedRef) :=
  fetched.foldl (fun m p => mapSet m p.id (mapToHydratedRef p env)) []

/-- Model of `hydrateRelationships`, also returning the argument lists of the
batch-fetch (`getProductsByIds`) calls it issues. -/
def hydrateRelationships (product : Product) (relationshipFilter : Option (List RelName))
    (repo : List String → List Product) (env : HEnv) :
    Product × List (List String) :=
  let fields := effectiveRelFields relationshipFilter
  let col := collectRel product fields
  if col.1 = [] then (product, [])
  else
    let fetched := repo col.1
    let byId := buildById fetched env
    let out := col.2.foldl (fun q fi =>
      q.setRel fi.1 (.hyd (fi.2.filterMap (fun i => mapGet byId i)))) product
    (out, [col.1])

/-! The hierarchy resolver (`hydrateHierarchy`) -/

inductive HName where
  | family | parent | variant | brand
deriving DecidableEq, Repr

/-- A key is absent (`none`) when the level was never written, and
`some none` when it was written as null. -/
structure HierarchyRefs where
  level : Option ℚ
  family : Option (Option HydratedRef) := none
  parent : Option (Option HydratedRef) := none
  variant : Option (Option HydratedRef) := none
  brand : Option (Option HydratedRef) := none

/-- An external regular-expression engine: `compile` yields the
first-capture-group matcher of a pattern string, or `none` when `new
RegExp` would throw. -/
structure RegexEngine where
  compile : String → Option (String → Option String)

/-- The `rx` helper: `try { new RegExp(envVal || fallback) } catch {
new RegExp(fallback) }`.  The final never-matching case is unreachable
for the built-in fallback patterns, which always compile. -/
def rx (E : RegexEngine) (envVal : Option String) (fallback : String) :
    String → Option String :=
  match E.compile (jsOr envVal fallback) with
  | some m => m
  | none =>
    match E.compile fallback with
    | some m => m
    | none => fun _ => none

/-- Model of `deriveByRegex`: no sku (or empty, which is falsy) derives nothing;
otherwise the first capture group of the pattern. -/
def deriveByRegex (sku : Option String) (pattern : String → Option String) :
    Option String :=
  match sku with
  | none => none
  | some s => if s = "" then none else pattern s

def famDefault : String := "^([^-]+-[^-]+)"

def pvDefault : String := "^(.*?)-[^-]+$"

/-- First capture group of the default family pattern `^([^-]+-[^-]+)`:
the text up to the second dash, requiring two non-empty dash-free runs. -/
def famMatch (s : String) : Option String :=
  let a := s.data.takeWhile (fun c => c ≠ '-')
  match s.data.drop a.length with
  | '-' :: r =>
    let b := r.takeWhile (fun c => c ≠ '-')
    if a ≠ [] ∧ b ≠ [] then some (String.mk (a ++ '-' :: b)) else none
  | _ => none

/-- First capture group of the default parent/variant pattern
`^(.*?)-[^-]+$`: everything before the last dash, provided the suffix
after it is non-empty (and the group, matched by `.`, contains no
newline). -/
def pvMatch (s : String) : Option String :=
  let rl := s.data.reverse
  let t := rl.takeWhile (fun c => c ≠ '-')
  if t.length = rl.length then none
  else
    let pre := s.data.take (s.data.length - t.length - 1)
    if t ≠ [] ∧ pre.all (fun c => c ≠ '\n') then some (String.mk pre) else none

/-- A concrete engine interpreting the two built-in default patterns;
any other string is treated as failing to compile, which exercises the
fallback path in witnesses. -/
def defaultEngine : RegexEngine :=
  ⟨fun s => if s = famDefault then some famMatch
    else if s = pvDefault then some pvMatch else none⟩

/-- Model of `product.sku ?? (product.attributes?.["sku"] as string | undefined)`
(a non-string attribute value, which would make the source throw later,
is outside the modelled universe and treated as absent). -/
def prodSku (product : Product) : Option String :=
  match product.sku with
  | some s => some s
  | none =>
    match mapGet product.attributes "sku" with
    | some (.str s) => some s
    | _ => none

/-- Model of `typeof attrs[k] === "string" ? attrs[k] : null`. -/
def strAttr (attrs : List (String × JVal)) (k : String) : Option String :=
  match mapGet attrs k with
  | some (.str s) => some s
  | _ => none

def prodLevel (env : HEnv) (product : Product) : Option ℚ :=
  toNumberOrNull (mapGet product.attributes (jsOr env.SKU_LEVEL_ATTR_SLUG "sku_level"))

def famQual (level : Option ℚ) : Bool :=
  decide (level = some 1) || decide (level = some 2) ||
    decide (level = some 3) || decide (level = some 4)

def parQual (level : Option ℚ) : Bool :=
  decide (level = some 3) || decide (level = some 4)

def varQual (level : Option ℚ) : Bool := decide (level = some 4)

/-- Model of `hierarchyFilter && hierarchyFilter.length ? new Set(filter) :
new Set(["variant", "parent", "family"])`. -/
def effHFilter (fl : Option (List HName)) : List HName :=
  match fl with
  | some l => if l.length ≠ 0 then l else [.variant, .parent, .family]
  | none => [.variant, .parent, .family]

def famGate (env : HEnv) (product : Product) (fl : Option (List HName)) : Bool :=
  (effHFilter fl).contains HName.family && famQual (prodLevel env product)

def parGate (env : HEnv) (product : Product) (fl : Option (List HName)) : Bool :=
  (effHFilter fl).contains HName.parent && parQual (prodLevel env product)

def varGate (env : HEnv) (product : Product) (fl : Option (List HName)) : Bool :=
  (effHFilter fl).contains HName.variant && varQual (prodLevel env product)

def famTarget (E : RegexEngine) (env : HEnv) (product : Product) : Option String :=
  jsNullish
    (match env.FAMILY_SKU_ATTR_SLUG with
      | some k => strAttr product.attributes k
      | none => none)
    (deriveByRegex (prodSku product) (rx E env.FAMILY_SKU_REGEX famDefault))

def parTarget (E : RegexEngine) (env : HEnv) (product : Product) : Option String :=
  jsNullish (strAttr product.attributes (jsOr env.PARENT_SKU_ATTR_SLUG "parent_sku"))
    (deriveByRegex (prodSku product) (rx E env.PARENT_SKU_REGEX pvDefault))

def varTarget (E : RegexEngine) (env : HEnv) (product : Product) : Option String :=
  jsNullish (strAttr product.attributes (jsOr env.VARIANT_SKU_ATTR_SLUG "variant_sku"))
    (deriveByRegex (prodSku product) (rx E env.VARIANT_SKU_REGEX pvDefault))

def brandTarget (env : HEnv) (product : Product) : Option String :=
  strAttr product.attributes (jsOr env.BRAND_SKU_ATTR_SLUG "brand_sku")

/-- The `targets` map in insertion order: each name is written at most
once, guarded by the filter and the level qualification. -/
def hierTargets (E : RegexEngine) (env : HEnv) (product : Product)
    (fl : Option (List HName)) (brand : Bool) : List (HName × Option String) :=
  (if famGate env product fl then [(HName.family, famTarget E env product)] else []) ++
  (if parGate env product fl then [(HName.parent, parTarget E env product)] else []) ++
  (if varGate env product fl then [(HName.variant, varTarget E env product)] else []) ++
  (if brand then [(HName.brand, brandTarget env product)] else [])

/-- Model of `skuSet`: the truthy target SKUs, deduplicated in insertion order. -/
def targetSkuSet (targets : List (HName × Option String)) : List String :=
  targets.foldl (fun acc t =>
    match t.2 with
    | some s => if s ≠ "" then insertUniq acc s else acc
    | none => acc) []

/-- Model of `new Map(found.map(p => [p.sku ?? "", p]).filter(([k]) => !!k))`. -/
def buildBySku (fetched : List Product) : List (String × Product) :=
  ((fetched.map (fun p => (p.sku.getD "", p))).filter
    (fun q => decide (q.1 ≠ ""))).foldl (fun m q => mapSet m q.1 q.2) []

/-- The write-loop body for one target: a falsy target SKU or a missed
lookup writes null, a hit writes the mapped summary. -/
def resolveTarget (fetchedBySku : List (String × Product))
    (mapRef : Product → HydratedRef) (t : Option String) : Option HydratedRef :=
  match t with
  | none => none
  | some s =>
    if s = "" then none
    else
      match mapGet fetchedBySku s with
      | some rec => some (mapRef rec)
      | none => none

/-- Model of `hydrateHierarchy`, also returning the argument lists of the
batch-fetch (`getProductsBySkus`) calls it issues.  The per-name fields
render the write-loop over the `targets` map, whose keys are distinct. -/
def hydrateHierarchy (E : RegexEngine) (env : HEnv) (product : Product)
    (repo : List String → List Product) (fl : Option (List HName))
    (brand : Bool) : HierarchyRefs × List (List String) :=
  let targets := hierTargets E env product fl brand
  let skuSet := targetSkuSet targets
  let fetched := if skuSet = [] then [] else repo skuSet
  let fbs := buildBySku fetched
  let mapRef := fun p => mapToHydratedRef p env
  ({ level := prodLevel env product
     family := (mapGet targets HName.family).map (resolveTarget fbs mapRef)
     parent := (mapGet targets HName.parent).map (resolveTarget fbs mapRef)
     variant := (mapGet targets HName.variant).map (resolveTarget fbs mapRef)
     brand := (mapGet targets HName.brand).map (resolveTarget fbs mapRef) },
   if skuSet = [] then [] else [skuSet])

/-! Facts about the relationship hydrator -/

theorem getRel_setRel_same (q : Product) (f : RelName) (v : RelVal) :
    (q.setRel f v).getRel f = some v := by
  cases f <;> rfl

theorem getRel_setRel_ne (q : Product) (f g : RelName) (v : RelVal) (h : f ≠ g) :
    (q.setRel f v).getRel g = q.getRel g := by
  cases f <;> cases g <;> first | rfl | exact absurd rfl h

theorem getRel_foldHyd_not_mem (byId : List (String × HydratedRef))
    (l : List (RelName × List String)) (f : RelName)
    (hf : ∀ fi ∈ l, fi.1 ≠ f) : ∀ q : Product,
    (l.foldl (fun q fi =>
      q.setRel fi.1 (.hyd (fi.2.filterMap (fun i => mapGet byId i)))) q).getRel f =
      q.getRel f := by
  induction l with
  | nil => intro q; rfl
  | cons fi rest ih =>
    intro q
    rw [List.foldl_cons, ih (fun x hx => hf x (List.mem_cons_of_mem fi hx))]
    exact getRel_setRel_ne q fi.1 f _ (hf fi (List.mem_cons_self fi rest))

theorem getRel_foldHyd_mem (byId : List (String × HydratedRef))
    (l : List (RelName × List String)) (f : RelName) (ids : List String)
    (hnd : (l.map Prod.fst).Nodup) (hmem : (f, ids) ∈ l) : ∀ q : Product,
    (l.foldl (fun q fi =>
      q.setRel fi.1 (.hyd (fi.2.filterMap (fun i => mapGet byId i)))) q).getRel f =
      some (.hyd (ids.filterMap (fun i => mapGet byId i))) := by
  induction l with
  | nil => cases hmem
  | cons fi rest ih =>
    intro q
    rw [List.map_cons, List.nodup_cons] at hnd
    rw [List.foldl_cons]
    rcases List.mem_cons.mp hmem with heq | hrest
    · have hf : ∀ x ∈ rest, x.1 ≠ f := by
        intro x hx hxf
        apply hnd.1
        have hxm : x.1 ∈ rest.map Prod.fst := List.mem_map_of_mem Prod.fst hx
        rw [← heq]
        dsimp only
        rw [← hxf]
        exact hxm
      rw [getRel_foldHyd_not_mem byId rest f hf, ← heq]
      exact getRel_setRel_same q f _
    · exact ih hnd.2 hrest _

theorem mapSet_keys_nodup {α β : Type} [DecidableEq α] (m : List (α × β))
    (k : α) (v : β) (h : (m.map Prod.fst).Nodup) :
    ((mapSet m k v).map Prod.fst).Nodup := by
  unfold mapSet
  split_ifs with hc
  · have hkeys : (m.map (fun p => if p.1 = k then (k, v) else p)).map Prod.fst =
        m.map Prod.fst := by
      rw [List.map_map]
      apply List.map_congr_left
      intro p _
      by_cases hp : p.1 = k
      · simp [hp]
      · simp [hp]
    rw [hkeys]
    exact h
  · rw [List.map_append]
    refine List.Nodup.append h (List.nodup_singleton _) ?_
    intro a ha hak
    rw [List.map_cons, List.map_nil, List.mem_singleton] at hak
    subst hak
    rw [List.mem_map] at ha
    obtain ⟨p, hp, hpk⟩ := ha
    rw [List.any_eq_true] at hc
    exact absurd ⟨p, hp, by rw [decide_eq_true_eq]; exact hpk⟩ hc

theorem insertUniq_nodup (l : List String) (x : String) (h : l.Nodup) :
    (insertUniq l x).Nodup := by
  unfold insertUniq
  split_ifs with hm
  · exact h
  · refine List.Nodup.append h (List.nodup_singleton x) ?_
    intro a ha hax
    rw [List.mem_singleton] at hax
    subst hax
    exact hm ha

theorem foldl_insertUniq_nodup (ids : List String) : ∀ acc : List String,
    acc.Nodup → (ids.foldl insertUniq acc).Nodup := by
  induction ids with
  | nil => intro acc h; exact h
  | cons i rest ih =>
    intro acc h
    exact ih _ (insertUniq_nodup acc i h)

theorem collectRel_fold_nodup (product : Product) (fields : List RelName) :
    ∀ acc : List String × List (RelName × List String),
    acc.1.Nodup → (acc.2.map Prod.fst).Nodup →
    ((fields.foldl (collectStep product) acc).1.Nodup ∧
     ((fields.foldl (collectStep product) acc).2.map Prod.fst).Nodup) := by
  induction fields with
  | nil => intro acc h1 h2; exact ⟨h1, h2⟩
  | cons f rest ih =>
    intro acc h1 h2
    rw [List.foldl_cons]
    apply ih
    · unfold collectStep
      rcases product.getRel f with - | (arr | arr) <;> dsimp only
      · exact h1
      · split_ifs
        · exact foldl_insertUniq_nodup _ _ h1
        · exact h1
      · split_ifs
        · exact h1
        · exact h1
    · unfold collectStep
      rcases product.getRel f with - | (arr | arr) <;> dsimp only
      · exact h2
      · split_ifs
        · exact mapSet_keys_nodup _ _ _ h2
        · exact h2
      · split_ifs
        · exact mapSet_keys_nodup _ _ _ h2
        · exact h2

theorem collectRel_ids_nodup (product : Product) (fields : List RelName) :
    (collectRel product fields).1.Nodup :=
  (collectRel_fold_nodup product fields ([], []) (List.nodup_nil) (List.nodup_nil)).1

theorem collectRel_keys_nodup (product : Product) (fields : List RelName) :
    ((collectRel product fields).2.map Prod.fst).Nodup :=
  (collectRel_fold_nodup product fields ([], []) (List.nodup_nil) (List.nodup_nil)).2

theorem mem_buildById (env : HEnv) : ∀ (fetched : List Product)
    (init : List (String × HydratedRef)) (p : String × HydratedRef),
    p ∈ fetched.foldl (fun m q => mapSet m q.id (mapToHydratedRef q env)) init →
    p ∈ init ∨ ∃ q ∈ fetched, p = (q.id, mapToHydratedRef q env) := by
  intro fetched
  induction fetched with
  | nil => intro init p h; exact Or.inl h
  | cons a rest ih =>
    intro init p h
    rw [List.foldl_cons] at h
    rcases ih _ p h with hmem | ⟨q, hq, hpe⟩
    · rcases mem_mapSet hmem with h1 | h1
      · exact Or.inl h1
      · exact Or.inr ⟨a, List.mem_cons_self a rest, h1⟩
    · exact Or.inr ⟨q, List.mem_cons_of_mem a hq, hpe⟩

/-- C1 counterexample: hydrating `includes = ["X", "Y"]` against a batch
result containing only `X` yields a one-element array — the ID `Y`,
absent from the result, is dropped rather than null-filled, so the array
length is not preserved. -/
def pXY : Product := { id := "A", includes := some (.raw [.str "X", .str "Y"]) }

def repoX : List String → List Product := fun _ => [{ id := "X" }]

def envEmpty : HEnv := {}

/-- The summary the batch result for `X` maps to (a record with no
attributes: every sub-field null). -/
def refX : HydratedRef :=
  { id := "X", sku := .nullv, mpn := .nullv, label := .nullv, listPrice := none }

/-- C1 counterexample: hydrating a product whose `includes` lists two IDs
`X` and `Y` against a repository that resolves only `X` yields an
`includes` array of length one (the slot for `Y` is dropped); no
null-filled summary for `Y` appears and no length-two array exists. -/
theorem C1_counterexample :
    (hydrateRelationships pXY none repoX envEmpty).1.includes =
      some (.hyd [refX]) ∧
    ¬ ∃ l, (hydrateRelationships pXY none repoX envEmpty).1.includes =
      some (.hyd l) ∧ l.length = 2 := by
  have h1 : (hydrateRelationships pXY none repoX envEmpty).1.includes =
      some (.hyd [refX]) := rfl
  refine ⟨h1, ?_⟩
  rintro ⟨l, hl, hlen⟩
  rw [h1] at hl
  obtain h2 := Option.some.inj hl
  injection h2 with h3
  rw [← h3] at hlen
  cases hlen

/-- C1 (amended): each hydrated relationship field is rebuilt by mapping
its original ID list through the batch result and dropping the IDs that
were not resolved (order preserved, array may shrink); every produced
summary comes from a fetched record, so a missing ID is never
null-filled. -/
theorem C1_hydrate_drops_missing (product : Product) (fl : Option (List RelName))
    (repo : List String → List Product) (env : HEnv) (f : RelName) (ids : List String)
    (hmem : (f, ids) ∈ (collectRel product (effectiveRelFields fl)).2)
    (hne : (collectRel product (effectiveRelFields fl)).1 ≠ []) :
    (hydrateRelationships product fl repo env).1.getRel f =
      some (.hyd (ids.filterMap (fun i =>
        mapGet (buildById (repo (collectRel product (effectiveRelFields fl)).1) env) i))) ∧
    ∀ r ∈ ids.filterMap (fun i =>
        mapGet (buildById (repo (collectRel product (effectiveRelFields fl)).1) env) i),
      ∃ q ∈ repo (collectRel product (effectiveRelFields fl)).1, q.id = r.id := by
  constructor
  · unfold hydrateRelationships
    dsimp only
    rw [if_neg hne]
    exact getRel_foldHyd_mem _ _ f ids
      (collectRel_keys_nodup product (effectiveRelFields fl)) hmem product
  · intro r hr
    rw [List.mem_filterMap] at hr
    obtain ⟨i, -, hmg⟩ := hr
    have hmem2 := mapGet_some_mem hmg
    rcases mem_buildById env _ [] _ hmem2 with hnil | ⟨q, hq, hpe⟩
    · cases hnil
    · refine ⟨q, hq, ?_⟩
      have : r = mapToHydratedRef q env := (Prod.mk.injEq .. ▸ hpe).2
      rw [this]
      rfl

/-- C1 witness: the amended theorem at the counterexample input. -/
theorem C1_witness :
    ((RelName.includes, ["X", "Y"]) ∈ (collectRel pXY (effectiveRelFields none)).2) ∧
    (hydrateRelationships pXY none repoX envEmpty).1.getRel .includes =
      some (.hyd (["X", "Y"].filterMap (fun i =>
        mapGet (buildById (repoX (collectRel pXY (effectiveRelFields none)).1) envEmpty) i))) :=
  ⟨by decide,
    (C1_hydrate_drops_missing pXY none repoX envEmpty .includes ["X", "Y"]
      (by decide) (by decide)).1⟩

/-! Batch-fetch deduplication (C6) -/

theorem targetSkuSet_fold_nodup (targets : List (HName × Option String)) :
    ∀ acc : List String, acc.Nodup →
    (targets.foldl (fun acc t =>
      match t.2 with
      | some s => if s ≠ "" then insertUniq acc s else acc
      | none => acc) acc).Nodup := by
  induction targets with
  | nil => intro acc h; exact h
  | cons t rest ih =>
    intro acc h
    rw [List.foldl_cons]
    apply ih
    rcases t.2 with - | s <;> dsimp only
    · exact h
    · split_ifs
      · exact insertUniq_nodup acc s h
      · exact h

theorem targetSkuSet_nodup (targets : List (HName × Option String)) :
    (targetSkuSet targets).Nodup :=
  targetSkuSet_fold_nodup targets [] List.nodup_nil

def pXX : Product :=
  { id := "A", includes := some (.raw [.str "X"]), replaces := some (.raw [.str "X"]) }

/-- C6: in one invocation, each hydrator deduplicates its keys and issues
exactly one batch fetch when the key set is non-empty, none when it is
empty; hydrating `{includes: ["X"], replaces: ["X"]}` issues exactly one
`getProductsByIds` call with `["X"]`. -/
theorem C6_dedup_single_batch :
    (∀ (product : Product) (fl : Option (List RelName))
      (repo : List String → List Product) (env : HEnv),
      (∀ c ∈ (hydrateRelationships product fl repo env).2, c.Nodup) ∧
      (hydrateRelationships product fl repo env).2.length =
        (if (collectRel product (effectiveRelFields fl)).1 = [] then 0 else 1)) ∧
    (∀ (E : RegexEngine) (env : HEnv) (product : Product)
      (repo : List String → List Product) (fl : Option (List HName)) (brand : Bool),
      (∀ c ∈ (hydrateHierarchy E env product repo fl brand).2, c.Nodup) ∧
      (hydrateHierarchy E env product repo fl brand).2.length =
        (if targetSkuSet (hierTargets E env product fl brand) = [] then 0 else 1)) ∧
    (hydrateRelationships pXX none repoX envEmpty).2 = [["X"]] := by
  refine ⟨?_, ?_, rfl⟩
  · intro product fl repo env
    unfold hydrateRelationships
    dsimp only
    split_ifs with hz
    · exact ⟨fun c hc => absurd hc (List.not_mem_nil c), rfl⟩
    · refine ⟨?_, rfl⟩
      intro c hc
      rw [List.mem_singleton] at hc
      rw [hc]
      exact collectRel_ids_nodup product (effectiveRelFields fl)
  · intro E env product repo fl brand
    unfold hydrateHierarchy
    dsimp only
    split_ifs with hz
    · exact ⟨fun c hc => absurd hc (List.not_mem_nil c), rfl⟩
    · refine ⟨?_, rfl⟩
      intro c hc
      rw [List.mem_singleton] at hc
      rw [hc]
      exact targetSkuSet_nodup _

/-- C6 witness: the universal parts applied at the counterexample
fixtures. -/
theorem C6_witness :
    ((hydrateRelationships pXY none repoX envEmpty).2.length = 1) ∧
    (∀ c ∈ (hydrateRelationships pXY none repoX envEmpty).2, c.Nodup) := by
  have h := C6_dedup_single_batch.1 pXY none repoX envEmpty
  refine ⟨?_, h.1⟩
  rw [h.2]
  decide

/-! Absent versus null in the hierarchy (C5) -/

def hierFetched (E : RegexEngine) (env : HEnv) (product : Product)
    (repo : List String → List Product) (fl : Option (List HName))
    (brand : Bool) : List Product :=
  if targetSkuSet (hierTargets E env product fl brand) = [] then []
  else repo (targetSkuSet (hierTargets E env product fl brand))

theorem hierTargets_get_family (E : RegexEngine) (env : HEnv) (product : Product)
    (fl : Option (List HName)) (brand : Bool) :
    mapGet (hierTargets E env product fl brand) HName.family =
      (if famGate env product fl then some (famTarget E env product) else none) := by
  unfold hierTargets
  cases hf : famGate env product fl <;>
    cases hp : parGate env product fl <;>
      cases hv : varGate env product fl <;>
        cases hb : brand <;>
          simp [mapGet, List.find?]

theorem hierTargets_get_parent (E : RegexEngine) (env : HEnv) (product : Product)
    (fl : Option (List HName)) (brand : Bool) :
    mapGet (hierTargets E env product fl brand) HName.parent =
      (if parGate env product fl then some (parTarget E env product) else none) := by
  unfold hierTargets
  cases hf : famGate env product fl <;>
    cases hp : parGate env product fl <;>
      cases hv : varGate env product fl <;>
        cases hb : brand <;>
          simp [mapGet, List.find?]

theorem hierTargets_get_variant (E : RegexEngine) (env : HEnv) (product : Product)
    (fl : Option (List HName)) (brand : Bool) :
    mapGet (hierTargets E env product fl brand) HName.variant =
      (if varGate env product fl then some (varTarget E env product) else none) := by
  unfold hierTargets
  cases hf : famGate env product fl <;>
    cases hp : parGate env product fl <;>
      cases hv : varGate env product fl <;>
        cases hb : brand <;>
          simp [mapGet, List.find?]

/-- C5 (amended): a hierarchy level key is absent exactly when the level
is not requested-and-qualified (in the possibly-defaulted filter AND the
product's numeric level qualifies for it); when present, its value is the
resolution of the derived target SKU, which is null precisely when no SKU
was derivable (or it was empty) or the derived SKU matched no fetched
record keyed by sku. -/
theorem C5_hierarchy_absent_vs_null (E : RegexEngine) (env : HEnv)
    (product : Product) (repo : List String → List Product)
    (fl : Option (List HName)) (brand : Bool) :
    ((hydrateHierarchy E env product repo fl brand).1.family = none ↔
      famGate env product fl = false) ∧
    ((hydrateHierarchy E env product repo fl brand).1.parent = none ↔
      parGate env product fl = false) ∧
    ((hydrateHierarchy E env product repo fl brand).1.variant = none ↔
      varGate env product fl = false) ∧
    (famGate env product fl = true →
      (hydrateHierarchy E env product repo fl brand).1.family =
        some (resolveTarget (buildBySku (hierFetched E env product repo fl brand))
          (fun p => mapToHydratedRef p env) (famTarget E env product))) ∧
    (parGate env product fl = true →
      (hydrateHierarchy E env product repo fl brand).1.parent =
        some (resolveTarget (buildBySku (hierFetched E env product repo fl brand))
          (fun p => mapToHydratedRef p env) (parTarget E env product))) ∧
    (varGate env product fl = true →
      (hydrateHierarchy E env product repo fl brand).1.variant =
        some (resolveTarget (buildBySku (hierFetched E env product repo fl brand))
          (fun p => mapToHydratedRef p env) (varTarget E env product))) ∧
    (∀ (fb : List (String × Product)) (mapRef : Product → HydratedRef),
      resolveTarget fb mapRef none = none) ∧
    (∀ (fb : List (String × Product)) (mapRef : Product → HydratedRef) (s : String),
      s ≠ "" → mapGet fb s = none → resolveTarget fb mapRef (some s) = none) ∧
    (∀ (fb : List (String × Product)) (mapRef : Product → HydratedRef) (s : String)
      (q : Product), s ≠ "" → mapGet fb s = some q →
      resolveTarget fb mapRef (some s) = some (mapRef q)) := by
  have hfam := hierTargets_get_family E env product fl brand
  have hpar := hierTargets_get_parent E env product fl brand
  have hvar := hierTargets_get_variant E env product fl brand
  have hfetch : (if targetSkuSet (hierTargets E env product fl brand) = [] then []
      else repo (targetSkuSet (hierTargets E env product fl brand))) =
      hierFetched E env product repo fl brand := rfl
  refine ⟨?_, ?_, ?_, ?_, ?_, ?_, ?_, ?_, ?_⟩
  · unfold hydrateHierarchy
    dsimp only
    rw [hfam]
    cases hg : famGate env product fl <;> simp [hg]
  · unfold hydrateHierarchy
    dsimp only
    rw [hpar]
    cases hg : parGate env product fl <;> simp [hg]
  · unfold hydrateHierarchy
    dsimp only
    rw [hvar]
    cases hg : varGate env product fl <;> simp [hg]
  · intro hg
    unfold hydrateHierarchy
    dsimp only
    rw [hfam, hg, if_pos rfl, hfetch]
    rfl
  · intro hg
    unfold hydrateHierarchy
    dsimp only
    rw [hpar, hg, if_pos rfl, hfetch]
    rfl
  · intro hg
    unfold hydrateHierarchy
    dsimp only
    rw [hvar, hg, if_pos rfl, hfetch]
    rfl
  · intro fb mapRef
    rfl
  · intro fb mapRef s hs hmg
    unfold resolveTarget
    dsimp only
    rw [if_neg hs, hmg]
  · intro fb mapRef s q hs hmg
    unfold resolveTarget
    dsimp only
    rw [if_neg hs, hmg]

/-- A product with no level attribute and a dash-free sku. -/
def pNoLevel : Product := { id := "P", sku := some "AB" }

/-- C5 counterexample: with `filter = ["family"]` and a product whose
level attribute is missing (so the family level does not qualify) and
whose sku `AB` derives no family SKU, the `family` key is entirely
absent from the result — not present with value null as the claim
requires for a requested level whose SKU could not be derived. -/
theorem C5_counterexample :
    HName.family ∈ effHFilter (some [HName.family]) ∧
    famTarget defaultEngine {} pNoLevel = none ∧
    (hydrateHierarchy defaultEngine {} pNoLevel (fun _ => [])
      (some [HName.family]) false).1.family = none ∧
    (hydrateHierarchy defaultEngine {} pNoLevel (fun _ => [])
      (some [HName.family]) false).1.family ≠ some none := by
  refine ⟨by decide, rfl, rfl, ?_⟩
  intro h
  rw [show (hydrateHierarchy defaultEngine {} pNoLevel (fun _ => [])
    (some [HName.family]) false).1.family = none from rfl] at h
  exact Option.noConfusion h

/-- A level-2 product whose sku derives a family SKU that no record
matches. -/
def pLvl2 : Product :=
  { id := "Q", sku := some "AB-CD", attributes := [("sku_level", .num 2)] }

/-- C5 witness: the amended theorem at a qualifying product —
`filter = ["family"]`, derived family SKU found no record, so `family`
is present with value null while `parent` is absent. -/
theorem C5_witness :
    famGate {} pLvl2 (some [HName.family]) = true ∧
    (hydrateHierarchy defaultEngine {} pLvl2 (fun _ => [])
      (some [HName.family]) false).1.family = some none ∧
    (hydrateHierarchy defaultEngine {} pLvl2 (fun _ => [])
      (some [HName.family]) false).1.parent = none := by
  have h := C5_hierarchy_absent_vs_null defaultEngine {} pLvl2 (fun _ => [])
    (some [HName.family]) false
  refine ⟨rfl, ?_, ?_⟩
  · rw [h.2.2.2.1 rfl]
    rfl
  · exact h.2.1.mpr rfl

/-! Regex compile failure falls back to the defaults (C9) -/

theorem rx_fallback (E : RegexEngine) (bad fb : String)
    (hbad : E.compile bad = none) (hfb : (E.compile fb).isSome = true) :
    rx E (some bad) fb = rx E none fb := by
  unfold rx jsOr
  dsimp only
  by_cases hb : bad = ""
  · rw [if_pos hb]
  · rw [if_neg hb, hbad]
    obtain ⟨m, hm⟩ := Option.isSome_iff_exists.mp hfb
    rw [hm]

/-- C9: a configured regex string that fails to compile behaves exactly
as if the regex were unconfigured, i.e. the built-in default pattern for
that level is used; the hydration result (a total function in this
model, so nothing is thrown) is unchanged. -/
theorem C9_regex_fallback (E : RegexEngine) (env : HEnv) (product : Product)
    (repo : List String → List Product) (fl : Option (List HName)) (brand : Bool)
    (bad : String) (hbad : E.compile bad = none)
    (hfam : (E.compile famDefault).isSome = true)
    (hpv : (E.compile pvDefault).isSome = true) :
    hydrateHierarchy E { env with FAMILY_SKU_REGEX := some bad } product repo fl brand =
      hydrateHierarchy E { env with FAMILY_SKU_REGEX := none } product repo fl brand ∧
    hydrateHierarchy E { env with PARENT_SKU_REGEX := some bad } product repo fl brand =
      hydrateHierarchy E { env with PARENT_SKU_REGEX := none } product repo fl brand ∧
    hydrateHierarchy E { env with VARIANT_SKU_REGEX := some bad } product repo fl brand =
      hydrateHierarchy E { env with VARIANT_SKU_REGEX := none } product repo fl brand := by
  refine ⟨?_, ?_, ?_⟩
  · unfold hydrateHierarchy hierTargets famTarget parTarget varTarget brandTarget
      famGate parGate varGate prodLevel
    dsimp only
    rw [rx_fallback E bad famDefault hbad hfam]
    rfl
  · unfold hydrateHierarchy hierTargets famTarget parTarget varTarget brandTarget
      famGate parGate varGate prodLevel
    dsimp only
    rw [rx_fallback E bad pvDefault hbad hpv]
    rfl
  · unfold hydrateHierarchy hierTargets famTarget parTarget varTarget brandTarget
      famGate parGate varGate prodLevel
    dsimp only
    rw [rx_fallback E bad pvDefault hbad hpv]
    rfl

/-- C9 witness: an invalid pattern string `(` under the concrete default
engine behaves as an unconfigured family regex. -/
theorem C9_witness :
    defaultEngine.compile "(" = none ∧
    hydrateHierarchy defaultEngine { FAMILY_SKU_REGEX := some "(" } pLvl2
        (fun _ => []) (some [HName.family]) false =
      hydrateHierarchy defaultEngine { FAMILY_SKU_REGEX := none } pLvl2
        (fun _ => []) (some [HName.family]) false :=
  ⟨rfl, (C9_regex_fallback defaultEngine {} pLvl2 (fun _ => [])
    (some [HName.family]) false "(" rfl rfl rfl).1⟩

end Plytix
